import Mathlib

/-!
Verification development for the doomworld_downloader repository.

Each section embeds one part of the Python source as executable Lean
definitions (dictionaries become association lists preserving insertion
order, fallible operations return Except, optional arguments become
Option), and proves or refutes the frozen specification claims about it.
-/

/-! ## Section 1: data_manager.py (DataManager, FieldManager, ValueCounter) -/

/-- Certainty levels, from DataManager.CERTAIN / DataManager.POSSIBLE. -/
inductive Certainty where
  | certain
  | possible
deriving DecidableEq, Repr

/-- Message constant DataManager.ONE_CERTAIN. -/
def ONE_CERTAIN : String := "The value is certain"

/-- Message constant DataManager.ONE_POSSIBLE. -/
def ONE_POSSIBLE : String := "Only one source reported a possible value"

/-- Message constant DataManager.AGREED_POSSIBLE. -/
def AGREED_POSSIBLE : String := "Multiple sources agreed on the possible value"

/-- Message constant DataManager.DISAGREED_CERTAIN. -/
def DISAGREED_CERTAIN : String := "Multiple sources disagreed on the certain value"

/-- Message constant DataManager.DISAGREED_POSSIBLE. -/
def DISAGREED_POSSIBLE : String := "Multiple sources disagreed on the possible value"

/-- Message constant DataManager.NO_VALUE. -/
def NO_VALUE : String := "No source reported any value"

/-- DataManager.FieldManager.ValueCounter: a reported value, how many times it
was reported, and the (truthy) sources that reported it. -/
structure ValueCounter where
  value : String
  count : Nat
  sources : List String
deriving DecidableEq, Repr

/-- ValueCounter.increment. -/
def ValueCounter.increment (vc : ValueCounter) : ValueCounter :=
  { vc with count := vc.count + 1 }

/-- ValueCounter.agreement: whether multiple reports agree on this value. -/
def ValueCounter.agreement (vc : ValueCounter) : Bool :=
  vc.count > 1

/-- ValueCounter.add_source: Python appends only when the source is truthy
(not None and not the empty string). -/
def ValueCounter.add_source (vc : ValueCounter) (source : Option String) : ValueCounter :=
  match source with
  | some s => if s = "" then vc else { vc with sources := vc.sources ++ [s] }
  | none => vc

/-- DataManager.FieldManager: the per-field store.  The Python dicts
self.data[CERTAIN] and self.data[POSSIBLE] (keyed by value, in insertion
order) are association lists of ValueCounter keyed by their value field. -/
structure FieldManager where
  field : String
  certainData : List ValueCounter
  possibleData : List ValueCounter
deriving DecidableEq, Repr

/-- Body of FieldManager.insert for one certainty bucket: if the value is
absent a fresh zero counter is created, then it is incremented and the
source appended. -/
def insertCounter (l : List ValueCounter) (value : String) (source : Option String) :
    List ValueCounter :=
  match l with
  | [] => [(ValueCounter.increment ⟨value, 0, []⟩).add_source source]
  | vc :: rest =>
      if vc.value = value then (vc.increment.add_source source) :: rest
      else vc :: insertCounter rest value source

/-- FieldManager.insert. -/
def FieldManager.insert (fm : FieldManager) (value : String) (certainty : Certainty)
    (source : Option String) : FieldManager :=
  match certainty with
  | .certain => { fm with certainData := insertCounter fm.certainData value source }
  | .possible => { fm with possibleData := insertCounter fm.possibleData value source }

/-- DataManager.FieldManager.Evaluation. -/
structure Evaluation where
  key : String
  possible_values : List (String × List String)
  needs_attention : Bool
  message : String
deriving DecidableEq, Repr

/-- FieldManager.__raw_values: raw values mapped to sources. -/
def raw_values (l : List ValueCounter) : List (String × List String) :=
  l.map (fun vc => (vc.value, vc.sources))

/-- FieldManager.evaluate, with the same branch structure as the source. -/
def FieldManager.evaluate (fm : FieldManager) : Evaluation :=
  let certain_count := fm.certainData.length
  let possible_count := fm.possibleData.length
  if 0 < certain_count then
    let pv := raw_values fm.certainData
    if certain_count = 1 then ⟨fm.field, pv, false, ONE_CERTAIN⟩
    else ⟨fm.field, pv, true, DISAGREED_CERTAIN⟩
  else if 0 < possible_count then
    let pv := raw_values fm.possibleData
    if possible_count = 1 then
      if (fm.possibleData.headD ⟨"", 0, []⟩).agreement then
        ⟨fm.field, pv, false, AGREED_POSSIBLE⟩
      else ⟨fm.field, pv, true, ONE_POSSIBLE⟩
    else ⟨fm.field, pv, true, DISAGREED_POSSIBLE⟩
  else ⟨fm.field, [], true, NO_VALUE⟩

/-- One insert call on a FieldManager: value, certainty, optional source. -/
structure InsOp where
  value : String
  certainty : Certainty
  source : Option String
deriving DecidableEq, Repr

/-- A FieldManager with no data yet, as created by __ensure_field_exists. -/
def emptyFM (field : String) : FieldManager := ⟨field, [], []⟩

/-- Apply a sequence of insert calls to a FieldManager. -/
def applyOps (fm : FieldManager) (ops : List InsOp) : FieldManager :=
  ops.foldl (fun fm op => fm.insert op.value op.certainty op.source) fm

/-- The values of the CERTAIN inserts of an insert sequence, in order. -/
def certVals (ops : List InsOp) : List String :=
  ops.filterMap (fun op => if op.certainty = .certain then some op.value else none)

/-- The values of the POSSIBLE inserts of an insert sequence, in order. -/
def possVals (ops : List InsOp) : List String :=
  ops.filterMap (fun op => if op.certainty = .possible then some op.value else none)

/-- First-occurrence deduplication, mirroring how dict keys accumulate under
repeated insertion: new values are appended at the end. -/
def dedupAppend (acc : List String) (l : List String) : List String :=
  l.foldl (fun acc v => if v ∈ acc then acc else acc ++ [v]) acc

/-! ### Claim C7 -/

/-- The truthy sources recorded by a run of inserts, in order. -/
def sourcesOf (ops : List InsOp) : List String :=
  ops.filterMap (fun op =>
    match op.source with
    | some s => if s = "" then none else some s
    | none => none)

/-! ### Claim C10: the DataManager (ledger) level -/

/-- DataManager: field keys mapped to FieldManager, in insertion order. -/
structure DataManager where
  data : List (String × FieldManager)
deriving Repr

/-- DataManager.__ensure_field_exists. -/
def ensure_field_exists (dm : DataManager) (field : String) : DataManager :=
  if field ∈ dm.data.map Prod.fst then dm
  else ⟨dm.data ++ [(field, FieldManager.mk field [] [])]⟩

/-- In-place update of the FieldManager stored under a key. -/
def updateField (l : List (String × FieldManager)) (field : String)
    (f : FieldManager → FieldManager) : List (String × FieldManager) :=
  match l with
  | [] => []
  | (k, fm) :: rest =>
      if k = field then (k, f fm) :: rest else (k, fm) :: updateField rest field f

/-- DataManager.insert. -/
def DataManager.insert (dm : DataManager) (field value : String) (certainty : Certainty)
    (source : Option String) : DataManager :=
  let dm2 := ensure_field_exists dm field
  ⟨updateField dm2.data field (fun fm => fm.insert value certainty source)⟩

/-- DataManager.evaluate: note that it creates the field when absent, via
__ensure_field_exists, so it has a state effect. -/
def DataManager.evaluate (dm : DataManager) (field : String) :
    Evaluation × DataManager :=
  let dm2 := ensure_field_exists dm field
  (((dm2.data.lookup field).getD (emptyFM field)).evaluate, dm2)

/-- One DataManager call: either insert or evaluate. -/
inductive DMOp where
  | insert (field value : String) (certainty : Certainty) (source : Option String)
  | evaluate (field : String)
deriving Repr

/-- Apply a sequence of DataManager calls to a DataManager. -/
def applyDM (dm : DataManager) (ops : List DMOp) : DataManager :=
  ops.foldl (fun dm op =>
    match op with
    | .insert f v c s => dm.insert f v c s
    | .evaluate f => (dm.evaluate f).2) dm

/-- DataManager.__iter__: evaluations of every field in the data manager. -/
def iterEvals (dm : DataManager) : List Evaluation :=
  dm.data.map (fun p => p.2.evaluate)

/-- The fields the iteration runs over. -/
def iterFields (dm : DataManager) : List String :=
  dm.data.map Prod.fst

/-- The fields that were ever passed to insert. -/
def insertedFields (ops : List DMOp) : List String :=
  ops.filterMap (fun op =>
    match op with
    | .insert f _ _ _ => some f
    | .evaluate _ => none)

/-- The fields that were ever passed to insert or evaluate. -/
def touchedFields (ops : List DMOp) : List String :=
  ops.map (fun op =>
    match op with
    | .insert f _ _ _ => f
    | .evaluate f => f)

/-- Invariant: every stored FieldManager carries its own key as its field. -/
def FieldsOK (dm : DataManager) : Prop := ∀ p ∈ dm.data, p.2.field = p.1

/-! ## Section 2: wad.py (WadMapInfo.get_single_key_for_map) -/

/-- Python values appearing in WAD map info configs: None, booleans, strings,
string lists, and nested dicts (association lists in insertion order). -/
inductive PVal where
  | none
  | bool (b : Bool)
  | str (s : String)
  | strList (l : List String)
  | dict (d : List (String × PVal))

/-- Python `d.get(k)`: an absent key yields None. -/
def dictGet (d : List (String × PVal)) (k : String) : PVal :=
  match d with
  | [] => .none
  | (k2, v) :: rest => if k2 = k then v else dictGet rest k

/-- Python `k in d` on a dict. -/
def dictHasKey (d : List (String × PVal)) (k : String) : Bool :=
  d.any (fun p => p.1 == k)

/-- Python `x is None`. -/
def PVal.isNone : PVal → Bool
  | .none => true
  | _ => false

def PVal.isDict : PVal → Bool
  | .dict _ => true
  | _ => false

/-- View a value as a dict, other values becoming the empty dict. -/
def PVal.toDictD : PVal → List (String × PVal)
  | .dict d => d
  | _ => []

/-- Truthiness of an optional-string argument (Python None and "" are falsy). -/
def optTruthy : Option String → Bool
  | some s => s ≠ ""
  | none => false

/-- Python `o in d` where o may be None: None is never a key here. -/
def optMem (o : Option String) (d : List (String × PVal)) : Bool :=
  match o with
  | some s => dictHasKey d s
  | none => false

/-- WadMapInfo.GAME_MODE_OPTIONS. -/
def GAME_MODE_OPTIONS : List String := ["single_player", "coop"]

/-- WadMapInfo.SKILL_OPTIONS. -/
def SKILL_OPTIONS : List String := ["easy", "medium", "hard"]

/-- WadMapInfo.VALID_KEYS with its per-key built-in defaults. -/
def VALID_KEYS : List (String × PVal) :=
  [("add_almost_reality_in_nomo", .bool false), ("add_reality_in_nomo", .bool false),
   ("allowed_missed_monsters", .strList []), ("allowed_missed_secrets", .strList []),
   ("mark_secret_exit_as_normal", .bool false), ("no_exit", .bool false),
   ("nomo_map", .bool false), ("skip_almost_reality", .bool false),
   ("skip_reality", .bool false), ("tyson_only", .bool false),
   ("skip_reality_for_categories", .none),
   ("skip_almost_reality_for_categories", .none),
   ("skip_also_pacifist", .bool false),
   ("skip_also_pacifist_for_categories", .none)]

/-- The two value preferences contributed by one top-level scope section:
sec.get(other, default-empty-dict).get(key) and sec.get(key).  A present but
non-dict sub-scope value makes the chained .get raise (AttributeError). -/
def sectionPrefs (sec : List (String × PVal)) (other : Option String) (key : String) :
    Except String (List PVal) :=
  match other with
  | some g =>
      if dictHasKey sec g then
        match dictGet sec g with
        | .dict sub => .ok [dictGet sub key, dictGet sec key]
        | _ => .error "AttributeError"
      else .ok [.none, dictGet sec key]
  | none => .ok [.none, dictGet sec key]

/-- The value_preferences list of get_single_key_for_map before the level
default is appended: the branch on which scope heads the top level. -/
def valuePrefs (map_info_dict : List (String × PVal)) (key : String)
    (skill game_mode : Option String) : Except String (List PVal) :=
  if optMem skill map_info_dict then
    match dictGet map_info_dict (skill.getD "") with
    | .dict sec => sectionPrefs sec game_mode key
    | _ => .error "AttributeError"
  else if optMem game_mode map_info_dict then
    match dictGet map_info_dict (game_mode.getD "") with
    | .dict sec => sectionPrefs sec skill key
    | _ => .error "AttributeError"
  else .ok []

/-- WadMapInfo.get_single_key_for_map.  Raising paths (invalid key, skill or
game mode; chained .get calls hitting non-dict values) are Except errors. -/
def get_single_key_for_map (map_info_dict : List (String × PVal)) (key : String)
    (skill game_mode : Option String) (use_builtin_defaults : Bool) :
    Except String PVal :=
  if !(dictHasKey VALID_KEYS key) then .error "ValueError: invalid key"
  else if optTruthy skill && !(SKILL_OPTIONS.contains (skill.getD "")) then
    .error "ValueError: invalid skill"
  else if optTruthy game_mode && !(GAME_MODE_OPTIONS.contains (game_mode.getD "")) then
    .error "ValueError: invalid game mode"
  else
    match valuePrefs map_info_dict key skill game_mode with
    | .error e => .error e
    | .ok prefs =>
        match (prefs ++ [dictGet map_info_dict key]).find? (fun v => !v.isNone) with
        | some v => .ok v
        | Option.none =>
            if use_builtin_defaults then .ok (dictGet VALID_KEYS key) else .ok .none

/-- The sub-scope value inside one section, treating an absent or non-dict
sub-scope as contributing nothing. -/
def specSub (sec : List (String × PVal)) (other : Option String) (key : String) : PVal :=
  match other with
  | some g => dictGet (dictGet sec g).toDictD key
  | none => .none

/-- Spec-side accessor: the value defined at the skill+game-mode scope
(reached through whichever scope heads the top level). -/
def subScopeVal (map_info_dict : List (String × PVal)) (key : String)
    (skill game_mode : Option String) : PVal :=
  if optMem skill map_info_dict then
    specSub (dictGet map_info_dict (skill.getD "")).toDictD game_mode key
  else if optMem game_mode map_info_dict then
    specSub (dictGet map_info_dict (game_mode.getD "")).toDictD skill key
  else .none

/-- Spec-side accessor: the value defined at the single skill- or
game-mode-headed scope. -/
def singleScopeVal (map_info_dict : List (String × PVal)) (key : String)
    (skill game_mode : Option String) : PVal :=
  if optMem skill map_info_dict then
    dictGet (dictGet map_info_dict (skill.getD "")).toDictD key
  else if optMem game_mode map_info_dict then
    dictGet (dictGet map_info_dict (game_mode.getD "")).toDictD key
  else .none

/-- Spec-side accessor: the level default. -/
def levelDefaultVal (map_info_dict : List (String × PVal)) (key : String) : PVal :=
  dictGet map_info_dict key

/-- Well-formedness of one section for the chained sub-scope access. -/
def sectionOK (sec : List (String × PVal)) (other : Option String) : Bool :=
  match other with
  | some g => !(dictHasKey sec g) || (dictGet sec g).isDict
  | none => true

/-- The chained .get accesses of get_single_key_for_map only meet dict values
(the well-formedness a valid config guarantees). -/
def accessOK (map_info_dict : List (String × PVal)) (skill game_mode : Option String) :
    Bool :=
  if optMem skill map_info_dict then
    (dictGet map_info_dict (skill.getD "")).isDict &&
      sectionOK (dictGet map_info_dict (skill.getD "")).toDictD game_mode
  else if optMem game_mode map_info_dict then
    (dictGet map_info_dict (game_mode.getD "")).isDict &&
      sectionOK (dictGet map_info_dict (game_mode.getD "")).toDictD skill
  else true

/-- First value in the chain that is defined (non-null), else the default. -/
def firstDefined : List PVal → PVal → PVal
  | [], dflt => dflt
  | v :: rest, dflt => if v.isNone then firstDefined rest dflt else v

/-- A concrete map info config: a skill-headed section with a game-mode
sub-scope, a section-level value, and a null level default. -/
def wadInfoExample : List (String × PVal) :=
  [("easy", .dict [("coop", .dict [("tyson_only", .bool true)]),
                   ("tyson_only", .bool false)]),
   ("tyson_only", .none)]

/-! ## Section 3: playback_parser.py (PlaybackData._parse_raw_data) -/

/-- Python truthiness of a config value. -/
def PVal.truthy : PVal → Bool
  | .none => false
  | .bool b => b
  | .str s => s ≠ ""
  | .strList l => !l.isEmpty
  | .dict d => !d.isEmpty

/-- Sub-list (substring) containment check over char lists. -/
def subListCheck (pat : List Char) : List Char → Bool
  | [] => pat.isEmpty
  | c :: rest => pat.isPrefixOf (c :: rest) || subListCheck pat rest

/-- Python `cat in v`: membership for lists, substring for strings, key
membership for dicts; a TypeError for non-container values. -/
def PVal.pyIn (cat : String) : PVal → Except String Bool
  | .strList l => .ok (l.contains cat)
  | .str s => .ok (subListCheck cat.toList s.toList)
  | .dict d => .ok (dictHasKey d cat)
  | .none => .error "TypeError"
  | .bool _ => .error "TypeError"

/-- Values on which the guarded `cat in v` check cannot raise (None is safe
because the code tests `is not None` first). -/
def pyInOK : PVal → Bool
  | .bool _ => false
  | _ => true

/-- Python set.add on the note_strings set (kept as a first-added-first list). -/
def addNote (notes : List String) (s : String) : List String :=
  if s ∈ notes then notes else notes ++ [s]

/-- One per-level entry of raw_data stats (from a levelstat line). -/
structure Stats where
  kills : String
  items : String
  secrets : String
deriving DecidableEq, Repr

/-- The raw_data fields _parse_raw_data reads.  Optional booleans mirror
self.raw_data.get(key, default) on keys the analysis may not have set; k100
embeds the Python key "100k". -/
structure RawData where
  affected_levels : List String
  stats : List Stats
  tyson_weapons : Option Bool
  k100 : Option Bool
  nomonsters : Option Bool
  reality : Option Bool
  almost_reality : Option Bool
  stroller : Option Bool
  pacifist : Option Bool
deriving DecidableEq, Repr

/-- The PlaybackData state _parse_raw_data reads and writes: data[category],
data[wad], raw_data, and the note_strings set. -/
structure PlaybackState where
  category : String
  wad : String
  raw : RawData
  note_strings : List String
deriving DecidableEq, Repr

/-- skip_x or (skip_x_for_categories is not None and category in them). -/
def orCat (flag cats : PVal) (category : String) : Except String Bool :=
  if flag.truthy then .ok true
  else if !cats.isNone then cats.pyIn category
  else .ok false

/-- Split a char list on a separator char (Python str.split with a one-char
separator). -/
def splitOnChar (c : Char) : List Char → List (List Char)
  | [] => [[]]
  | x :: rest =>
      match splitOnChar c rest with
      | [] => [[]]
      | h :: t => if x = c then [] :: h :: t else (x :: h) :: t

/-- Python s.split(sep) for a one-char separator. -/
def pySplitChar (c : Char) (s : String) : List String :=
  (splitOnChar c s.toList).map List.asString

/-- The jumpwad all-items loop: walk the per-level stats, stopping at the
first level whose items fraction is not complete; a malformed fraction makes
the two-name unpacking raise. -/
def jumpwadAllItems : List Stats → Except String Bool
  | [] => .ok true
  | s :: rest =>
      match pySplitChar '/' s.items with
      | [items_gotten, total_items] =>
          if items_gotten ≠ total_items then .ok false else jumpwadAllItems rest
      | _ => .error "ValueError: unpack"

/-- The Reality / Almost Reality note block of _parse_raw_data: returns the
updated note set. -/
def realityNotes (map_info_dict : List (String × PVal)) (skill game_mode : Option String)
    (raw : RawData) (is_nomo skip_reality_final : Bool) (category1 : String)
    (notes : List String) : Except String (List String) :=
  if raw.reality.getD false then do
    let tag1 ←
      if is_nomo then do
        let a ← get_single_key_for_map map_info_dict "add_reality_in_nomo" skill
          game_mode true
        pure a.truthy
      else pure true
    pure (if tag1 && !skip_reality_final then addNote notes "Also Reality" else notes)
  else if raw.almost_reality.getD false then do
    let skip_almost ←
      get_single_key_for_map map_info_dict "skip_almost_reality" skill game_mode true
    let skip_almost_categories ←
      get_single_key_for_map map_info_dict "skip_almost_reality_for_categories" skill
        game_mode true
    let skip_almost_final ← orCat skip_almost skip_almost_categories category1
    let tag1 ←
      if is_nomo then do
        let a ← get_single_key_for_map map_info_dict "add_almost_reality_in_nomo" skill
          game_mode true
        pure a.truthy
      else pure true
    pure (if tag1 && !(skip_reality_final || skip_almost_final) then
            addNote notes "Also Almost Reality"
          else notes)
  else pure notes

/-- The jumpwad special-case block of _parse_raw_data: the final category. -/
def jumpwadStep (wad : String) (stats : List Stats) (category2 : String) :
    Except String String :=
  if wad == "jumpwad" then do
    let all_items ← jumpwadAllItems stats
    if !all_items && category2 == "UV Max" then pure "UV Speed"
    else if category2 == "Pacifist" then pure "UV Speed"
    else pure category2
  else pure category2

/-- PlaybackData._parse_raw_data, for the map info object of the single
affected level (map_info_dict), the demo skill and game mode.  Multi-level
runs return unchanged; category corrections (Tyson, Stroller, jumpwad) and
note additions (Reality, Almost Reality, Also Pacifist) follow the source
order, with rule lookups going through get_single_key_for_map. -/
def parse_raw_data (map_info_dict : List (String × PVal)) (skill game_mode : Option String)
    (st0 : PlaybackState) : Except String PlaybackState :=
  if st0.raw.affected_levels.length > 1 then .ok st0
  else if st0.raw.affected_levels.isEmpty then .error "IndexError"
  else do
    let category1 ←
      if st0.raw.tyson_weapons.getD false && st0.raw.k100.getD false then do
        let tyson_only ← get_single_key_for_map map_info_dict "tyson_only" skill
          game_mode true
        if !tyson_only.truthy && st0.category == "UV Max" then pure "Tyson"
        else pure st0.category
      else pure st0.category
    let is_nomo := st0.raw.nomonsters.getD false
    let skip_reality ←
      get_single_key_for_map map_info_dict "skip_reality" skill game_mode true
    let skip_reality_categories ←
      get_single_key_for_map map_info_dict "skip_reality_for_categories" skill
        game_mode true
    let skip_reality_final ← orCat skip_reality skip_reality_categories category1
    let notes1 ← realityNotes map_info_dict skill game_mode st0.raw is_nomo
      skip_reality_final category1 st0.note_strings
    let category2 :=
      if st0.raw.stroller.getD true && category1 == "UV Speed" then "Stroller"
      else category1
    let skip_also_pacifist ←
      get_single_key_for_map map_info_dict "skip_also_pacifist" skill game_mode true
    let skip_also_pacifist_categories ←
      get_single_key_for_map map_info_dict "skip_also_pacifist_for_categories" skill
        game_mode true
    let skip_also_pacifist_final ← orCat skip_also_pacifist
      skip_also_pacifist_categories category2
    let notes2 :=
      if !skip_also_pacifist_final && (st0.raw.pacifist.getD false && !is_nomo &&
          !(category2 == "Pacifist" || category2 == "Stroller" ||
            category2 == "UV Speed"))
      then addNote notes1 "Also Pacifist"
      else notes1
    let category3 ← jumpwadStep st0.wad st0.raw.stats category2
    pure { st0 with category := category3, note_strings := notes2 }

/-- The guarded category-membership lookups of _parse_raw_data cannot raise
TypeError on this rule table. -/
def lookupCatOK (map_info_dict : List (String × PVal)) (skill game_mode : Option String)
    (k : String) : Bool :=
  match get_single_key_for_map map_info_dict k skill game_mode true with
  | .ok v => pyInOK v
  | .error _ => true

def catsOK (map_info_dict : List (String × PVal)) (skill game_mode : Option String) : Bool :=
  lookupCatOK map_info_dict skill game_mode "skip_reality_for_categories" &&
  lookupCatOK map_info_dict skill game_mode "skip_almost_reality_for_categories" &&
  lookupCatOK map_info_dict skill game_mode "skip_also_pacifist_for_categories"

/-- Well-formedness of the per-level stats fractions (x/y strings). -/
def statsOK (stats : List Stats) : Bool :=
  stats.all (fun s => (pySplitChar '/' s.items).length == 2)

/-- A concrete playback state for a Tyson-correction run. -/
def stTyson : PlaybackState :=
  { category := "UV Max", wad := "scythe",
    raw := { affected_levels := ["Map 01"],
             stats := [⟨"100/100", "50/50", "10/10"⟩],
             tyson_weapons := some true, k100 := some true,
             nomonsters := some false, reality := some false,
             almost_reality := some false, stroller := some false,
             pacifist := some false },
    note_strings := [] }

/-- A concrete playback state for a stroller-flagged UV Speed run. -/
def stStroller (b : Bool) : PlaybackState :=
  { category := "UV Speed", wad := "scythe",
    raw := { affected_levels := ["Map 01"],
             stats := [⟨"0/0", "0/0", "0/0"⟩],
             tyson_weapons := some false, k100 := some false,
             nomonsters := some false, reality := some false,
             almost_reality := some false, stroller := some b,
             pacifist := some false },
    note_strings := [] }

/-! ## Section 4: demo_updater.py (DemoUpdater.generate_update_jsons matching) -/

/-- JSON values appearing in the composite match key: strings and string
lists (the player list). -/
inductive MVal where
  | str (s : String)
  | strs (l : List String)
deriving DecidableEq, Repr

/-- A demo JSON restricted to the five MATCH_KEY_MAPPING fields
[players, level, time, wad, category]. -/
structure DemoJson where
  players : MVal
  level : MVal
  time : MVal
  wad : MVal
  category : MVal
deriving DecidableEq, Repr

/-- demo_json[MATCH_KEY_MAPPING[idx]]. -/
def demoJsonGet (dj : DemoJson) : Nat → MVal
  | 0 => dj.players
  | 1 => dj.level
  | 2 => dj.time
  | 3 => dj.wad
  | 4 => dj.category
  | _ => .str ""

/-- json_value.split(".")[0] on the time value (times are strings; a
non-string time never reaches this call). -/
def mvalTimeTrunc : MVal → MVal
  | .str s => .str ((pySplitChar '.' s).headD "")
  | .strs l => .strs l

/-- The inner comparison loop over the enumerated match key for one
candidate.  Mirrors the source exactly: a mismatch disqualifies the
candidate only on the time component (index 2) and only when the
tic-truncated time also mismatches; mismatches on any other component fall
through without clearing found_match. -/
def loopCheck (dj : DemoJson) : List (Nat × MVal) → Bool
  | [] => true
  | (idx, value) :: rest =>
      let json_value := demoJsonGet dj idx
      if json_value ≠ value then
        if idx = 2 ∧ mvalTimeTrunc json_value ≠ value then false
        else loopCheck dj rest
      else loopCheck dj rest

/-- The candidate loop: first candidate whose loopCheck passes. -/
def findCandidate (cands : List DemoJson) (matchKey : List (Nat × MVal)) :
    Option DemoJson :=
  match cands with
  | [] => none
  | dj :: rest => if loopCheck dj matchKey then some dj else findCandidate rest matchKey

/-- The while loop over shrinking match keys, written structurally on the
reversed key: the head of the reversed key is the trailing component the
source drops on failure (match_key = match_key[:-1]); an empty key means no
match. -/
def fuzzyLoopRev (cands : List DemoJson) : List (Nat × MVal) → Option DemoJson
  | [] => none
  | x :: restRev =>
      match findCandidate cands (x :: restRev).reverse with
      | some dj => some dj
      | none => fuzzyLoopRev cands restRev

/-- The matching of one DSDA demo record against the candidate demo JSONs:
match_key = [player_list, level, time, wad, category]. -/
def resolveMatch (localKey : List MVal) (cands : List DemoJson) : Option DemoJson :=
  fuzzyLoopRev cands localKey.enum.reverse

/-- The five components a candidate exposes, in match-key order. -/
def djVals (dj : DemoJson) : List MVal :=
  [dj.players, dj.level, dj.time, dj.wad, dj.category]

/-- Spec-side agreement of a candidate with the local record on the first k
components of the composite key. -/
def agreesOnPrefix (localKey : List MVal) (k : Nat) (dj : DemoJson) : Prop :=
  (djVals dj).take k = localKey.take k

/-- A concrete local match key. -/
def localKeyEx : List MVal :=
  [.strs ["player1"], .str "Map 01", .str "1:23", .str "wad1", .str "UV Max"]

/-- A candidate agreeing with localKeyEx on every component. -/
def djEx : DemoJson :=
  ⟨.strs ["player1"], .str "Map 01", .str "1:23", .str "wad1", .str "UV Max"⟩

/-- A candidate agreeing with localKeyEx only on the time component. -/
def djDiff : DemoJson :=
  ⟨.strs ["player2"], .str "Map 07", .str "1:23", .str "wad2", .str "Pacifist"⟩

/-! ## Section 5: lmp_parser.py (LMPData._get_header_and_footer,
LMPData._get_source_port, LMPData.check_doom_1_2_or_before) -/

/-- LMPData._is_zdoom_or_gzdoom: the first four header bytes spell FORM. -/
def isZdoomHeader (header : List Nat) : Bool :=
  header.take 4 == [70, 79, 82, 77]

/-- The backward footer scan from byte index i: collect bytes until the 0x80
sentinel; walking past the start of the file makes the relative seek fail
(OSError), exactly as seek(-2, 1) does at position 1. -/
def scanBack (bytes : List Nat) : Nat → Except String (List Nat)
  | 0 =>
      if bytes.getD 0 0 = 128 then .ok [] else .error "OSError: negative seek"
  | i + 1 =>
      if bytes.getD (i + 1) 0 = 128 then .ok []
      else (scanBack bytes i).map (fun acc => acc ++ [bytes.getD (i + 1) 0])

/-- LMPData._get_header_and_footer: read(22) never fails even on short files;
ZDoom demos skip the footer scan; otherwise seek(-1, 2) fails on an empty
file and the backward scan collects the trailing bytes after the last 0x80
(the reversed join of footer_chars). -/
def get_header_and_footer (bytes : List Nat) : Except String (List Nat × List Nat) :=
  let header := bytes.take 22
  if isZdoomHeader header then .ok (header, [])
  else
    match bytes.length with
    | 0 => .error "OSError: negative seek"
    | n + 1 => (scanBack bytes n).map (fun f => (header, f))

/-- A UTF-8 continuation byte. -/
def utf8Cont (b : Nat) : Bool :=
  decide (128 ≤ b ∧ b ≤ 191)

/-- Valid second byte of a multi-byte UTF-8 sequence for start byte b0,
excluding overlong encodings, surrogates and values above U+10FFFF. -/
def utf8Second (b0 b1 : Nat) : Bool :=
  if b0 = 224 then decide (160 ≤ b1 ∧ b1 ≤ 191)
  else if b0 = 237 then decide (128 ≤ b1 ∧ b1 ≤ 159)
  else if b0 = 240 then decide (144 ≤ b1 ∧ b1 ≤ 191)
  else if b0 = 244 then decide (128 ≤ b1 ∧ b1 ≤ 143)
  else decide (128 ≤ b1 ∧ b1 ≤ 191)

/-- UTF-8 decoding with errors="ignore", driven by a step budget that the
wrapper sets to the byte count (each step consumes at least one byte): a
valid sequence decodes to its code point; an ill-formed sequence drops its
maximal valid prefix and decoding resumes at the following byte
(CPython 3.3+ behavior). -/
def utf8DecodeIgnoreAux : Nat → List Nat → List Char
  | 0, _ => []
  | fuel + 1, l =>
      match l with
      | [] => []
      | b0 :: rest =>
          if b0 < 128 then Char.ofNat b0 :: utf8DecodeIgnoreAux fuel rest
          else if 194 ≤ b0 ∧ b0 ≤ 223 then
            match rest with
            | [] => []
            | b1 :: rest2 =>
                if utf8Cont b1 then
                  Char.ofNat ((b0 - 192) * 64 + (b1 - 128)) ::
                    utf8DecodeIgnoreAux fuel rest2
                else utf8DecodeIgnoreAux fuel rest
          else if 224 ≤ b0 ∧ b0 ≤ 239 then
            match rest with
            | [] => []
            | b1 :: rest2 =>
                if utf8Second b0 b1 then
                  match rest2 with
                  | [] => []
                  | b2 :: rest3 =>
                      if utf8Cont b2 then
                        Char.ofNat ((b0 - 224) * 4096 + (b1 - 128) * 64 + (b2 - 128)) ::
                          utf8DecodeIgnoreAux fuel rest3
                      else utf8DecodeIgnoreAux fuel rest2
                else utf8DecodeIgnoreAux fuel rest
          else if 240 ≤ b0 ∧ b0 ≤ 244 then
            match rest with
            | [] => []
            | b1 :: rest2 =>
                if utf8Second b0 b1 then
                  match rest2 with
                  | [] => []
                  | b2 :: rest3 =>
                      if utf8Cont b2 then
                        match rest3 with
                        | [] => []
                        | b3 :: rest4 =>
                            if utf8Cont b3 then
                              Char.ofNat ((b0 - 240) * 262144 + (b1 - 128) * 4096 +
                                (b2 - 128) * 64 + (b3 - 128)) ::
                                utf8DecodeIgnoreAux fuel rest4
                            else utf8DecodeIgnoreAux fuel rest3
                      else utf8DecodeIgnoreAux fuel rest2
                else utf8DecodeIgnoreAux fuel rest
          else utf8DecodeIgnoreAux fuel rest

/-- bytes.decode(errors="ignore"). -/
def decodeIgnore (bs : List Nat) : String :=
  (utf8DecodeIgnoreAux bs.length bs).asString

/-- Python str whitespace, as used by str.strip() and str.split(): the ASCII
controls 0x09-0x0D and 0x1C-0x1F, the space, NEL, NBSP, OGHAM SPACE MARK,
the EN-QUAD..HAIR-SPACE range, LINE and PARAGRAPH SEPARATOR, NARROW NBSP,
MEDIUM MATHEMATICAL SPACE and IDEOGRAPHIC SPACE. -/
def isPySpace (c : Char) : Bool :=
  decide ((9 ≤ c.toNat ∧ c.toNat ≤ 13) ∨ (28 ≤ c.toNat ∧ c.toNat ≤ 31) ∨
    c.toNat = 32 ∨ c.toNat = 133 ∨ c.toNat = 160 ∨ c.toNat = 5760 ∨
    (8192 ≤ c.toNat ∧ c.toNat ≤ 8202) ∨ c.toNat = 8232 ∨ c.toNat = 8233 ∨
    c.toNat = 8239 ∨ c.toNat = 8287 ∨ c.toNat = 12288)

def pyStrip (s : String) : String :=
  (((s.toList.dropWhile isPySpace).reverse.dropWhile isPySpace).reverse).asString

/-- A str.splitlines() line boundary: LF, VT, FF, CR (with CRLF as one
boundary), FS, GS, RS, NEL, LINE SEPARATOR and PARAGRAPH SEPARATOR. -/
def isLineBreak (c : Char) : Bool :=
  decide ((10 ≤ c.toNat ∧ c.toNat ≤ 13) ∨ c.toNat = 28 ∨ c.toNat = 29 ∨
    c.toNat = 30 ∨ c.toNat = 133 ∨ c.toNat = 8232 ∨ c.toNat = 8233)

/-- str.splitlines() over the remaining chars, the current line accumulated
in reverse; the Bool records that the previous char was a CR, so a directly
following LF is the second half of one CRLF boundary; no trailing empty line
after a final boundary. -/
def splitlinesAux : List Char → Bool → List Char → List (List Char)
  | [], _, acc => if acc.isEmpty then [] else [acc.reverse]
  | c :: rest, sawCR, acc =>
      if c = '\n' then
        if sawCR then splitlinesAux rest false acc
        else acc.reverse :: splitlinesAux rest false []
      else if c = '\r' then acc.reverse :: splitlinesAux rest true []
      else if isLineBreak c then acc.reverse :: splitlinesAux rest false []
      else splitlinesAux rest false (c :: acc)

/-- Python str.splitlines(). -/
def pySplitlines (l : List Char) : List (List Char) :=
  splitlinesAux l false []

/-- LMPData.PORT_FOOTER_TO_DSDA_MAP. -/
def PORT_FOOTER_TO_DSDA_MAP : List (String × String) :=
  [("PrBoom-Plus", "PRBoom"), ("dsda-doom", "DSDA-Doom"), ("Woof", "Woof")]

/-- The source_port_family loop of _parse_footer: iterate the footer through
str.splitlines(); the stripped last line starting with a known port prefix
wins (the raw_data default is ""). -/
def sourcePortFamilyOf (footer : String) : String :=
  (pySplitlines footer.toList).foldl
    (fun family line =>
      PORT_FOOTER_TO_DSDA_MAP.foldl
        (fun fam p => if p.1.toList.isPrefixOf line then pyStrip line.asString else fam)
        family)
    ""

/-- Python s.split(maxsplit=2): at most three parts, splitting on whitespace
runs, the remainder kept verbatim. -/
def splitWsMax2 (l : List Char) : List (List Char) :=
  let l1 := l.dropWhile isPySpace
  match l1 with
  | [] => []
  | _ =>
      let w1 := l1.takeWhile (fun c => !isPySpace c)
      let r1 := (l1.dropWhile (fun c => !isPySpace c)).dropWhile isPySpace
      match r1 with
      | [] => [w1]
      | _ =>
          let w2 := r1.takeWhile (fun c => !isPySpace c)
          let r2 := (r1.dropWhile (fun c => !isPySpace c)).dropWhile isPySpace
          match r2 with
          | [] => [w1, w2]
          | _ => [w1, w2, r2]

def pySplitMax2 (s : String) : List String :=
  (splitWsMax2 s.toList).map List.asString

/-- .replace("(", "").replace(")", ""). -/
def pyRemoveParens (s : String) : String :=
  (s.toList.filter (fun c => c ≠ '(' ∧ c ≠ ')')).asString

/-- LMPData.VERSION_COMPLEVEL_MAP. -/
def VERSION_COMPLEVEL_MAP : List (Int × String) :=
  [(201, "8"), (202, "9"), (210, "10"), (211, "14"), (212, "15"), (213, "16"),
   (214, "17"), (221, "21")]

/-- An uppercase hex digit. -/
def hexDigit (n : Nat) : Char :=
  if n < 10 then Char.ofNat (48 + n) else Char.ofNat (55 + n)

/-- Python format {:X} of a byte. -/
def hexByteX (n : Nat) : String :=
  if n < 16 then [hexDigit n].asString else [hexDigit (n / 16), hexDigit (n % 16)].asString

/-- Python format {:02X} of a byte. -/
def hexByte02X (n : Nat) : String :=
  [hexDigit ((n / 16) % 16), hexDigit (n % 16)].asString

/-- LMPData.check_doom_1_2_or_before: unpacking header[:7] into three names
plus a starred rest needs at least three bytes, else ValueError. -/
def check_doom_1_2_or_before (header : List Nat) : Except String Bool :=
  if header.length < 3 then .error "ValueError: unpack"
  else
    let episode := header.getD 1 0
    let level := header.getD 2 0
    let players := (header.take 7).drop 3
    if !(1 ≤ episode && episode ≤ 3) then .ok false
    else if !(1 ≤ level && level ≤ 9) then .ok false
    else if players.any (fun p => p ≠ 0 && p ≠ 1) then .ok false
    else .ok true

/-- The trailing version checks of _get_source_port (reached only when no
early return fired): Doom v1.2-or-earlier detection, TASDoom, and the
longtics flag for version 111. -/
def versionChecks (header : List Nat) (raw_version : Int) (port0 : Option String) :
    Except String (Option String × Bool) := do
  let port ←
    if 0 ≤ raw_version ∧ raw_version ≤ 4 then do
      let isOld ← check_doom_1_2_or_before header
      pure (if isOld then some "Doom v1.2 or earlier" else port0)
    else if raw_version = 110 then pure (some "TASDoom")
    else pure port0
  pure (port, raw_version = 111)

/-- LMPData._get_source_port.  Inputs beyond the header bytes: the
source_port_family string recovered from the footer, the complevel from the
footer command line (Python falsy None or "" both mean absent), and the raw
version from the parse_lmp output (default -1 when absent).  Returns the
source_port value (None when underivable) and the is_longtics flag. -/
def get_source_port (header : List Nat) (source_port_family : String)
    (complevel : Option String) (raw_version : Int) :
    Except String (Option String × Bool) :=
  if isZdoomHeader header then
    if header.length < 22 then .error "IndexError: header index out of range"
    else
      .ok (some ("ZDoom/GZDoom (demo compat version 0x" ++
        hexByteX (header.getD 20 0) ++ hexByte02X (header.getD 21 0) ++ ")"), false)
  else if source_port_family ≠ "" then
    if subListCheck "XDRE".toList source_port_family.toList then
      versionChecks header raw_version
        (some (pyRemoveParens ((pySplitMax2 source_port_family).getLastD "")))
    else
      match pySplitMax2 source_port_family with
      | [port_name, port_version] => do
          let port_name := (PORT_FOOTER_TO_DSDA_MAP.lookup port_name).getD port_name
          let port_with_version := port_name ++ " v" ++ port_version
          let cl ←
            if (complevel.getD "") = "" then
              if raw_version = 203 then
                if header.length < 3 then
                  throw "IndexError: header index out of range"
                else if Char.ofNat (header.getD 2 0) = 'M' then pure (some "11")
                else pure complevel
              else pure (VERSION_COMPLEVEL_MAP.lookup raw_version)
            else pure complevel
          if (cl.getD "") ≠ "" then
            pure (some (port_with_version ++ "cl" ++ cl.getD ""), false)
          else versionChecks header raw_version Option.none
      | _ => .error "ValueError: unpack"
  else versionChecks header raw_version Option.none

/-- The binary-driven part of LMPData.analyze: header and footer extraction,
port-family recovery from the decoded footer, and source-port derivation.
complevel and raw_version come from the external parse_lmp tool and the
footer command line. -/
def analyzeBinary (bytes : List Nat) (complevel : Option String) (raw_version : Int) :
    Except String (List Nat × String × Option String × Bool) := do
  let hf ← get_header_and_footer bytes
  let footer := decodeIgnore hf.2
  let family := sourcePortFamilyOf footer
  let pl ← get_source_port hf.1 family complevel raw_version
  pure (hf.1, footer, pl.1, pl.2)

/-- The footer the scan would extract (empty when extraction fails). -/
def footerOfBytes (bytes : List Nat) : List Nat :=
  match get_header_and_footer bytes with
  | .ok hf => hf.2
  | .error _ => []

/-- Port-family strings whose split does not break two-name unpacking. -/
def famOK (family : String) : Bool :=
  family == "" || subListCheck "XDRE".toList family.toList ||
    (pySplitMax2 family).length == 2

/-! ## Section 6: demo_json_constructor.py
(_handle_needs_attention_entries, _construct_skill_tag) -/

/-- NEEDS_ATTENTION_PLACEHOLDER from upload_config.py. -/
def NEEDS_ATTENTION_PLACEHOLDER : String := "UNKNOWN"

/-- The DemoJsonConstructor state the handled functions touch. -/
structure ConstructorState where
  demo_json : List (String × String)
  has_issue : Bool
  maybe_cheated : Bool
deriving DecidableEq, Repr

/-- Python dict assignment demo_json[k] = v: update in place or append. -/
def dictSetStr (d : List (String × String)) (k v : String) : List (String × String) :=
  match d with
  | [] => [(k, v)]
  | (k2, v2) :: rest =>
      if k2 = k then (k2, v) :: rest else (k2, v2) :: dictSetStr rest k v

/-- The playback/textfile extraction loop over possible_values: the last
value listing a playback source wins the playback slot, else the textfile
slot. -/
def extractCategories (pvs : List (String × List String)) :
    Option String × Option String :=
  pvs.foldl
    (fun pbtf p =>
      if p.2.contains "playback" then (some p.1, pbtf.2)
      else if p.2.contains "textfile" then (pbtf.1, some p.1)
      else pbtf)
    (Option.none, Option.none)

/-- DemoJsonConstructor._handle_needs_attention_entries.  extra_stats is
extra_data["stats"] (a KeyError when absent but needed). -/
def handle_needs_attention_entries (key_to_insert : String) (evaluation : Evaluation)
    (extra_stats : Option (List Stats)) (st : ConstructorState) :
    Except String ConstructorState :=
  let fallback : ConstructorState :=
    let json2 :=
      if evaluation.possible_values.length = 1 then
        dictSetStr st.demo_json key_to_insert
          ((evaluation.possible_values.headD ("", [])).1)
      else dictSetStr st.demo_json key_to_insert NEEDS_ATTENTION_PLACEHOLDER
    { st with
      demo_json := json2
      has_issue := true
      maybe_cheated := if evaluation.key = "is_tas" then true else st.maybe_cheated }
  if evaluation.key = "category" then
    let pbtf := extractCategories evaluation.possible_values
    let pb := pbtf.1
    let tf := pbtf.2
    if (pb = some "NoMo 100S" ∧ tf = some "NoMo") ∨
        (pb = some "NM 100S" ∧ tf = some "NM Speed") ∨
        (pb = some "Pacifist" ∧ tf = some "UV Speed") then
      .ok { st with demo_json := dictSetStr st.demo_json key_to_insert (pb.getD "") }
    else
      match extra_stats with
      | Option.none => .error "KeyError: stats"
      | some stats =>
          let no_kills := stats.all (fun s => s.kills == "0/0")
          let no_secrets := stats.all (fun s => s.secrets == "0/0")
          if no_secrets ∧ ((pb = some "NoMo" ∧ tf = some "NoMo 100S") ∨
              (pb = some "NM Speed" ∧ tf = some "NM 100S")) then
            .ok { st with demo_json := dictSetStr st.demo_json key_to_insert (pb.getD "") }
          else if no_secrets ∧ no_kills ∧ pb = some "UV Speed" ∧ tf = some "UV Max" then
            .ok { st with demo_json := dictSetStr st.demo_json key_to_insert (pb.getD "") }
          else .ok fallback
  else .ok fallback

/-- The category evaluation of the C6 scenario with the replay reporting
NoMo and the textfile reporting NoMo 100S. -/
def evNoMo : Evaluation :=
  ⟨"category", [("NoMo", ["playback"]), ("NoMo 100S", ["textfile"])], true,
   DISAGREED_POSSIBLE⟩

/-- DemoJsonConstructor.SKILL_CATEGORY_NOTE_RE, the anchored pattern
Skill-digit-space-rest (rest nonempty, no newline). -/
def matchesSkillNote (s : String) : Bool :=
  match s.toList with
  | 'S' :: 'k' :: 'i' :: 'l' :: 'l' :: ' ' :: d :: ' ' :: rest =>
      d.isDigit && !rest.isEmpty && rest.all (fun c => c ≠ '\n')
  | _ => false

/-- DemoJsonConstructor.MISC_CATEGORY_NOTES. -/
def MISC_CATEGORY_NOTES : List String :=
  ["-altdeath", "-coop_spawns", "-fast", "-nomonsters", "-respawn", "-solo-net"]

/-- The loop state of _construct_skill_tag: the local category, the
incompatible flag, the accumulated additional info, and demo_json[category]
(which the Incompatible branch overwrites). -/
structure SkillTagState where
  category : String
  incompatible : Bool
  additional_info : String
  dj_category : String
deriving DecidableEq, Repr

/-- The note loop of _construct_skill_tag.  The first branch reproduces the
source verbatim: the regex is matched against the literal string
"note_string", not against the loop variable, so the branch never fires. -/
def skillTagLoop : List String → SkillTagState → Except String SkillTagState
  | [], st => .ok st
  | note :: rest, st => do
      let st ←
        if matchesSkillNote "note_string" then
          if st.category ≠ "Other" then
            throw "RuntimeError: Other skill run found without Other category"
          else pure { st with category := note }
        else pure st
      let st :=
        if note = "Incompatible" then
          { st with incompatible := true, dj_category := "Other" }
        else st
      let st :=
        if note ∈ MISC_CATEGORY_NOTES then
          if st.additional_info = "" then
            { st with additional_info := " with " ++ note }
          else
            { st with additional_info := st.additional_info ++ " and " ++ note }
        else st
      skillTagLoop rest st

/-- DemoJsonConstructor._construct_skill_tag: returns the emitted skill tag
and the final demo_json[category]. -/
def construct_skill_tag (note_strings : List String) (dj_category : String) :
    Except String (String × String) := do
  let st ← skillTagLoop note_strings
    ⟨dj_category, false, "", dj_category⟩
  let category :=
    if st.incompatible then "Incompatible " ++ st.category else st.category
  let skill_tag := category ++ st.additional_info
  if skill_tag ≠ "" ∧ skill_tag ≠ st.dj_category then
    pure (skill_tag ++ "\n", st.dj_category)
  else pure ("", st.dj_category)

/-! ## Theorems -/

/-! ### Helper lemmas about the FieldManager state -/

theorem insertCounter_values (l : List ValueCounter) (v : String) (s : Option String) :
    (insertCounter l v s).map ValueCounter.value =
      if v ∈ l.map ValueCounter.value then l.map ValueCounter.value
      else l.map ValueCounter.value ++ [v] := by
  induction l with
  | nil =>
      simp [insertCounter, ValueCounter.increment, ValueCounter.add_source]
      cases s with
      | none => rfl
      | some s => by_cases hs : s = "" <;> simp [hs]
  | cons vc rest ih =>
      by_cases h : vc.value = v
      · have hinc : (vc.increment.add_source s).value = vc.value := by
          cases s with
          | none => rfl
          | some s =>
              by_cases hs : s = "" <;>
                simp [ValueCounter.add_source, ValueCounter.increment, hs]
        simp [insertCounter, h, hinc]
      · simp only [insertCounter, if_neg h, List.map_cons, ih]
        have hne : ¬ v = vc.value := fun hh => h hh.symm
        by_cases hmem : v ∈ rest.map ValueCounter.value <;>
          simp [List.mem_cons, hmem, hne]

theorem insertCounter_ne_nil (l : List ValueCounter) (v : String) (s : Option String) :
    insertCounter l v s ≠ [] := by
  cases l with
  | nil => simp [insertCounter]
  | cons vc rest =>
      by_cases h : vc.value = v <;> simp [insertCounter, h]

/-- The certain bucket after a run of inserts: its value keys are the prior
keys extended, in first-occurrence order, by the CERTAIN-inserted values. -/
theorem applyOps_certain_values (ops : List InsOp) :
    ∀ fm : FieldManager,
      ((applyOps fm ops).certainData.map ValueCounter.value) =
        dedupAppend (fm.certainData.map ValueCounter.value) (certVals ops) := by
  induction ops with
  | nil => intro fm; rfl
  | cons op rest ih =>
      intro fm
      cases hc : op.certainty with
      | certain =>
          have h1 : applyOps fm (op :: rest) =
              applyOps { fm with
                certainData := insertCounter fm.certainData op.value op.source } rest := by
            simp [applyOps, FieldManager.insert, hc]
          rw [h1, ih]
          simp [certVals, dedupAppend, hc, insertCounter_values]
      | possible =>
          have h1 : applyOps fm (op :: rest) =
              applyOps { fm with
                possibleData := insertCounter fm.possibleData op.value op.source } rest := by
            simp [applyOps, FieldManager.insert, hc]
          rw [h1, ih]
          simp [certVals, dedupAppend, hc]

theorem mem_dedupAppend (l : List String) :
    ∀ acc x, x ∈ dedupAppend acc l ↔ x ∈ acc ∨ x ∈ l := by
  induction l with
  | nil => intro acc x; simp [dedupAppend]
  | cons v rest ih =>
      intro acc x
      by_cases h : v ∈ acc
      · have : dedupAppend acc (v :: rest) = dedupAppend acc rest := by
          simp [dedupAppend, h]
        rw [this, ih]
        constructor
        · rintro (hx | hx)
          · exact Or.inl hx
          · exact Or.inr (List.mem_cons_of_mem _ hx)
        · rintro (hx | hx)
          · exact Or.inl hx
          · rcases List.mem_cons.mp hx with hx | hx
            · exact Or.inl (hx ▸ h)
            · exact Or.inr hx
      · have : dedupAppend acc (v :: rest) = dedupAppend (acc ++ [v]) rest := by
          simp [dedupAppend, h]
        rw [this, ih]
        simp [List.mem_append, List.mem_cons]
        tauto

theorem nodup_dedupAppend (l : List String) :
    ∀ acc, acc.Nodup → (dedupAppend acc l).Nodup := by
  induction l with
  | nil => intro acc h; exact h
  | cons v rest ih =>
      intro acc h
      by_cases hv : v ∈ acc
      · have : dedupAppend acc (v :: rest) = dedupAppend acc rest := by
          simp [dedupAppend, hv]
        rw [this]; exact ih acc h
      · have : dedupAppend acc (v :: rest) = dedupAppend (acc ++ [v]) rest := by
          simp [dedupAppend, hv]
        rw [this]
        exact ih _ (by simp [List.nodup_append, h, hv])

theorem dedupAppend_nil_eq_nil (l : List String) :
    dedupAppend [] l = [] ↔ l = [] := by
  constructor
  · intro h
    cases l with
    | nil => rfl
    | cons v rest =>
        exfalso
        have : v ∈ dedupAppend [] (v :: rest) := by
          rw [mem_dedupAppend]; simp
        rw [h] at this
        exact absurd this (List.not_mem_nil v)
  · intro h; subst h; rfl

theorem dedupAppend_length_one (l : List String) (h : l ≠ []) :
    (dedupAppend [] l).length = 1 ↔ ∀ v ∈ l, ∀ w ∈ l, v = w := by
  constructor
  · intro hlen v hv w hw
    rcases List.length_eq_one.mp hlen with ⟨x, hx⟩
    have h1 : v ∈ dedupAppend [] l := (mem_dedupAppend l [] v).mpr (Or.inr hv)
    have h2 : w ∈ dedupAppend [] l := (mem_dedupAppend l [] w).mpr (Or.inr hw)
    rw [hx] at h1 h2
    simp at h1 h2
    rw [h1, h2]
  · intro hall
    cases l with
    | nil => exact absurd rfl h
    | cons v rest =>
        have hmemv : v ∈ dedupAppend [] (v :: rest) := by
          rw [mem_dedupAppend]; simp
        have hsub : ∀ x ∈ dedupAppend [] (v :: rest), x = v := by
          intro x hx
          rcases (mem_dedupAppend (v :: rest) [] x).mp hx with hx | hx
          · exact absurd hx (List.not_mem_nil x)
          · exact hall x hx v (by simp)
        have hnd : (dedupAppend [] (v :: rest)).Nodup := nodup_dedupAppend _ [] List.nodup_nil
        cases hd : dedupAppend [] (v :: rest) with
        | nil => rw [hd] at hmemv; exact absurd hmemv (List.not_mem_nil v)
        | cons x xs =>
            cases xs with
            | nil => rfl
            | cons y ys =>
                exfalso
                rw [hd] at hsub hnd
                have hx : x = v := hsub x (by simp)
                have hy : y = v := hsub y (by simp)
                rw [List.nodup_cons] at hnd
                exact hnd.1 (by rw [hx, hy]; simp)

theorem two_mem_length_ge_two {l : List String} {v w : String}
    (hv : v ∈ l) (hw : w ∈ l) (hne : v ≠ w) : 2 ≤ l.length := by
  cases l with
  | nil => exact absurd hv (List.not_mem_nil v)
  | cons x rest =>
      cases rest with
      | nil =>
          simp at hv hw
          exact absurd (hv.trans hw.symm) hne
      | cons y ys => simp [Nat.succ_le_succ, Nat.le_add_left]

/-! ### Claim C1 -/

/-- C1: for every insert sequence on one field containing at least one CERTAIN
insert, the Evaluation value set is drawn only from the CERTAIN-inserted
values; it is settled exactly when the CERTAIN inserts contain one distinct
value and needs attention exactly when they contain two or more. -/
theorem certain_dominates_evaluation (field : String) (ops : List InsOp)
    (h : certVals ops ≠ []) :
    (∀ p ∈ ((applyOps (emptyFM field) ops).evaluate).possible_values,
        p.1 ∈ certVals ops) ∧
    (((applyOps (emptyFM field) ops).evaluate).needs_attention = false ↔
        ∀ v ∈ certVals ops, ∀ w ∈ certVals ops, v = w) ∧
    (((applyOps (emptyFM field) ops).evaluate).needs_attention = true ↔
        ∃ v ∈ certVals ops, ∃ w ∈ certVals ops, v ≠ w) := by
  have hvals : ((applyOps (emptyFM field) ops).certainData.map ValueCounter.value) =
      dedupAppend [] (certVals ops) := by
    have := applyOps_certain_values ops (emptyFM field)
    simpa [emptyFM, dedupAppend] using this
  have hlen : (applyOps (emptyFM field) ops).certainData.length =
      (dedupAppend [] (certVals ops)).length := by
    rw [← hvals, List.length_map]
  have hpos : 0 < (applyOps (emptyFM field) ops).certainData.length := by
    rw [hlen]
    cases hd : dedupAppend [] (certVals ops) with
    | nil => exact absurd ((dedupAppend_nil_eq_nil _).mp hd) h
    | cons x xs => simp
  constructor
  · intro p hp
    have : p.1 ∈ (applyOps (emptyFM field) ops).certainData.map ValueCounter.value := by
      unfold FieldManager.evaluate at hp
      simp only [if_pos hpos] at hp
      split at hp <;>
        · simp only [raw_values, List.mem_map] at hp
          rcases hp with ⟨vc, hvc, hvceq⟩
          exact List.mem_map.mpr ⟨vc, hvc, by rw [← hvceq]⟩
    rw [hvals] at this
    rcases (mem_dedupAppend _ [] _).mp this with h0 | h0
    · exact absurd h0 (List.not_mem_nil _)
    · exact h0
  · have hatt : ((applyOps (emptyFM field) ops).evaluate).needs_attention =
        !((applyOps (emptyFM field) ops).certainData.length = 1 : Bool) := by
      unfold FieldManager.evaluate
      simp only [if_pos hpos]
      split
      · next heq => simp [heq]
      · next heq => simp [heq]
    constructor
    · rw [hatt]
      constructor
      · intro hfalse
        have h1 : (applyOps (emptyFM field) ops).certainData.length = 1 := by
          by_contra hne
          simp [hne] at hfalse
        rw [hlen] at h1
        exact (dedupAppend_length_one (certVals ops) h).mp h1
      · intro hall
        have h1 : (dedupAppend [] (certVals ops)).length = 1 :=
          (dedupAppend_length_one (certVals ops) h).mpr hall
        rw [← hlen] at h1
        simp [h1]
    · rw [hatt]
      constructor
      · intro htrue
        have hne1 : (applyOps (emptyFM field) ops).certainData.length ≠ 1 := by
          intro heq; rw [heq] at htrue; simp at htrue
        by_contra hno
        push_neg at hno
        exact hne1 (by rw [hlen]; exact (dedupAppend_length_one (certVals ops) h).mpr hno)
      · rintro ⟨v, hv, w, hw, hvw⟩
        have hv2 : v ∈ dedupAppend [] (certVals ops) :=
          (mem_dedupAppend _ [] v).mpr (Or.inr hv)
        have hw2 : w ∈ dedupAppend [] (certVals ops) :=
          (mem_dedupAppend _ [] w).mpr (Or.inr hw)
        have h2 : 2 ≤ (dedupAppend [] (certVals ops)).length :=
          two_mem_length_ge_two hv2 hw2 hvw
        have : (applyOps (emptyFM field) ops).certainData.length ≠ 1 := by
          rw [hlen]; omega
        simp [this]

/-- Witness for C1 at a concrete insert sequence. -/
theorem certain_dominates_evaluation_witness :
    certVals [⟨"3", Certainty.certain, some "lmp"⟩,
              ⟨"4", Certainty.possible, some "textfile"⟩] ≠ [] ∧
    (∀ p ∈ ((applyOps (emptyFM "complevel")
        [⟨"3", Certainty.certain, some "lmp"⟩,
         ⟨"4", Certainty.possible, some "textfile"⟩]).evaluate).possible_values,
        p.1 ∈ certVals [⟨"3", Certainty.certain, some "lmp"⟩,
                        ⟨"4", Certainty.possible, some "textfile"⟩]) := by
  refine ⟨by decide, ?_⟩
  exact (certain_dominates_evaluation "complevel"
    [⟨"3", Certainty.certain, some "lmp"⟩, ⟨"4", Certainty.possible, some "textfile"⟩]
    (by decide)).1

theorem applyOps_possible_same (v : String) (ops : List InsOp)
    (h : ∀ op ∈ ops, op.certainty = Certainty.possible ∧ op.value = v) :
    ∀ (f : String) (cd : List ValueCounter) (c : Nat) (srcs : List String),
      applyOps ⟨f, cd, [⟨v, c, srcs⟩]⟩ ops =
        ⟨f, cd, [⟨v, c + ops.length, srcs ++ sourcesOf ops⟩]⟩ := by
  induction ops with
  | nil => intro f cd c srcs; simp [applyOps, sourcesOf]
  | cons op rest ih =>
      intro f cd c srcs
      obtain ⟨hc, hv⟩ := h op (by simp)
      have hrest : ∀ op ∈ rest, op.certainty = Certainty.possible ∧ op.value = v :=
        fun o ho => h o (List.mem_cons_of_mem _ ho)
      have hstep : applyOps ⟨f, cd, [⟨v, c, srcs⟩]⟩ (op :: rest) =
          applyOps ⟨f, cd, [⟨v, c + 1, srcs ++ sourcesOf [op]⟩]⟩ rest := by
        simp only [applyOps, List.foldl_cons]
        congr 1
        simp only [FieldManager.insert, hc]
        cases hs : op.source with
        | none =>
            simp [insertCounter, hv, ValueCounter.increment, ValueCounter.add_source,
              sourcesOf, hs]
        | some s =>
            by_cases hse : s = "" <;>
              simp [insertCounter, hv, ValueCounter.increment, ValueCounter.add_source,
                sourcesOf, hs, hse]
      rw [hstep, ih hrest]
      have hsrc : sourcesOf (op :: rest) = sourcesOf [op] ++ sourcesOf rest := by
        cases hs : op.source with
        | none => simp [sourcesOf, hs]
        | some s => by_cases hse : s = "" <;> simp [sourcesOf, hs, hse]
      rw [hsrc]
      simp [List.append_assoc]
      omega

/-- C7: with no CERTAIN values and one distinct POSSIBLE value, the field is
settled with the agreed-possible message exactly when the value was reported
more than once, and needs attention with the single-unconfirmed-source message
exactly when it was reported once. -/
theorem single_possible_source_rule (field v : String) (ops : List InsOp)
    (h1 : ops ≠ [])
    (h2 : ∀ op ∈ ops, op.certainty = Certainty.possible ∧ op.value = v) :
    ((((applyOps (emptyFM field) ops).evaluate).needs_attention = false ∧
      ((applyOps (emptyFM field) ops).evaluate).message = AGREED_POSSIBLE) ↔
        1 < ops.length) ∧
    ((((applyOps (emptyFM field) ops).evaluate).needs_attention = true ∧
      ((applyOps (emptyFM field) ops).evaluate).message = ONE_POSSIBLE) ↔
        ops.length = 1) := by
  cases ops with
  | nil => exact absurd rfl h1
  | cons op rest =>
      obtain ⟨hc, hv⟩ := h2 op (by simp)
      have hrest : ∀ o ∈ rest, o.certainty = Certainty.possible ∧ o.value = v :=
        fun o ho => h2 o (List.mem_cons_of_mem _ ho)
      have hstep : applyOps (emptyFM field) (op :: rest) =
          applyOps ⟨field, [], [⟨v, 1, sourcesOf [op]⟩]⟩ rest := by
        simp only [applyOps, List.foldl_cons]
        congr 1
        simp only [emptyFM, FieldManager.insert, hc]
        cases hs : op.source with
        | none =>
            simp [insertCounter, hv, ValueCounter.increment, ValueCounter.add_source,
              sourcesOf, hs]
        | some s =>
            by_cases hse : s = "" <;>
              simp [insertCounter, hv, ValueCounter.increment, ValueCounter.add_source,
                sourcesOf, hs, hse]
      have hfm : applyOps (emptyFM field) (op :: rest) =
          ⟨field, [], [⟨v, 1 + rest.length, sourcesOf [op] ++ sourcesOf rest⟩]⟩ := by
        rw [hstep, applyOps_possible_same v rest hrest]
      rw [hfm]
      by_cases hn : rest.length = 0
      · simp [FieldManager.evaluate, ValueCounter.agreement, hn, ONE_POSSIBLE,
          AGREED_POSSIBLE]
      · have hgt : 1 + rest.length > 1 := by omega
        simp [FieldManager.evaluate, ValueCounter.agreement, hgt, ONE_POSSIBLE,
          AGREED_POSSIBLE]
        exact ⟨by omega, fun h => hn (by simp [h])⟩

/-- Witness for C7 at concrete insert sequences (two agreeing possible
reports, then a single possible report). -/
theorem single_possible_source_rule_witness :
    (((applyOps (emptyFM "category")
        [⟨"UV Max", Certainty.possible, some "playback"⟩,
         ⟨"UV Max", Certainty.possible, some "textfile"⟩]).evaluate).needs_attention =
      false ∧
     ((applyOps (emptyFM "category")
        [⟨"UV Max", Certainty.possible, some "playback"⟩,
         ⟨"UV Max", Certainty.possible, some "textfile"⟩]).evaluate).message =
      AGREED_POSSIBLE) ∧
    (((applyOps (emptyFM "category")
        [⟨"UV Max", Certainty.possible, some "playback"⟩]).evaluate).needs_attention =
      true ∧
     ((applyOps (emptyFM "category")
        [⟨"UV Max", Certainty.possible, some "playback"⟩]).evaluate).message =
      ONE_POSSIBLE) := by
  constructor
  · exact (single_possible_source_rule "category" "UV Max"
      [⟨"UV Max", Certainty.possible, some "playback"⟩,
       ⟨"UV Max", Certainty.possible, some "textfile"⟩]
      (by decide) (by decide)).1.mpr (by decide)
  · exact (single_possible_source_rule "category" "UV Max"
      [⟨"UV Max", Certainty.possible, some "playback"⟩]
      (by decide) (by decide)).2.mpr (by decide)

/-- C10 counterexample: a single evaluate call on a never-inserted field makes
iteration yield an Evaluation for that field, so iteration is not restricted
to fields ever passed to insert, and an evaluate call on a never-inserted
field does change the set of fields that iteration yields. -/
theorem ledger_iteration_counterexample :
    insertedFields [DMOp.evaluate "category"] = [] ∧
    iterFields (applyDM ⟨[]⟩ [DMOp.evaluate "category"]) = ["category"] ∧
    iterFields (applyDM ⟨[]⟩ []) = [] :=
  ⟨rfl, rfl, rfl⟩

theorem FieldManager.insert_field (fm : FieldManager) (v : String) (c : Certainty)
    (s : Option String) : (fm.insert v c s).field = fm.field := by
  cases c <;> rfl

theorem FieldManager.evaluate_key (fm : FieldManager) : (fm.evaluate).key = fm.field := by
  simp only [FieldManager.evaluate]
  split
  · split <;> rfl
  · split
    · split
      · split <;> rfl
      · rfl
    · rfl

theorem updateField_keys (l : List (String × FieldManager)) (f : String)
    (g : FieldManager → FieldManager) :
    (updateField l f g).map Prod.fst = l.map Prod.fst := by
  induction l with
  | nil => rfl
  | cons p rest ih =>
      obtain ⟨k, fm⟩ := p
      by_cases h : k = f <;> simp [updateField, h, ih]

theorem iterFields_ensure (dm : DataManager) (f : String) :
    iterFields (ensure_field_exists dm f) =
      if f ∈ iterFields dm then iterFields dm else iterFields dm ++ [f] := by
  unfold ensure_field_exists iterFields
  split <;> simp_all [iterFields]

theorem applyDM_fields (ops : List DMOp) :
    ∀ dm : DataManager,
      iterFields (applyDM dm ops) = dedupAppend (iterFields dm) (touchedFields ops) := by
  induction ops with
  | nil => intro dm; rfl
  | cons op rest ih =>
      intro dm
      cases op with
      | insert f v c s =>
          have h1 : applyDM dm (DMOp.insert f v c s :: rest) =
              applyDM (dm.insert f v c s) rest := rfl
          have h2 : iterFields (dm.insert f v c s) =
              iterFields (ensure_field_exists dm f) := by
            simp [DataManager.insert, iterFields, updateField_keys]
          rw [h1, ih, h2, iterFields_ensure]
          simp only [touchedFields, List.map_cons, dedupAppend, List.foldl_cons]
      | evaluate f =>
          have h1 : applyDM dm (DMOp.evaluate f :: rest) =
              applyDM (ensure_field_exists dm f) rest := rfl
          rw [h1, ih, iterFields_ensure]
          simp only [touchedFields, List.map_cons, dedupAppend, List.foldl_cons]

theorem fieldsOK_ensure (dm : DataManager) (f : String) (h : FieldsOK dm) :
    FieldsOK (ensure_field_exists dm f) := by
  unfold ensure_field_exists
  split
  · exact h
  · intro p hp
    rcases List.mem_append.mp hp with hp | hp
    · exact h p hp
    · simp at hp; rw [hp]

theorem fieldsOK_updateField (l : List (String × FieldManager)) (f : String)
    (g : FieldManager → FieldManager) (hg : ∀ fm, (g fm).field = fm.field)
    (h : ∀ p ∈ l, p.2.field = p.1) : ∀ p ∈ updateField l f g, p.2.field = p.1 := by
  induction l with
  | nil => intro p hp; exact absurd hp (List.not_mem_nil p)
  | cons q rest ih =>
      obtain ⟨k, fm⟩ := q
      intro p hp
      by_cases hk : k = f
      · rw [updateField, if_pos hk] at hp
        rcases List.mem_cons.mp hp with hp | hp
        · rw [hp]
          exact (hg fm).trans (h (k, fm) (by simp))
        · exact h p (List.mem_cons_of_mem _ hp)
      · rw [updateField, if_neg hk] at hp
        rcases List.mem_cons.mp hp with hp | hp
        · rw [hp]; exact h (k, fm) (by simp)
        · exact ih (fun q hq => h q (List.mem_cons_of_mem _ hq)) p hp

theorem fieldsOK_applyDM (ops : List DMOp) :
    ∀ dm : DataManager, FieldsOK dm → FieldsOK (applyDM dm ops) := by
  induction ops with
  | nil => intro dm h; exact h
  | cons op rest ih =>
      intro dm h
      cases op with
      | insert f v c s =>
          have h1 : applyDM dm (DMOp.insert f v c s :: rest) =
              applyDM (dm.insert f v c s) rest := rfl
          rw [h1]
          apply ih
          exact fieldsOK_updateField _ f _
            (fun fm => FieldManager.insert_field fm v c s)
            (fieldsOK_ensure dm f h)
      | evaluate f =>
          have h1 : applyDM dm (DMOp.evaluate f :: rest) =
              applyDM (ensure_field_exists dm f) rest := rfl
          rw [h1]
          exact ih _ (fieldsOK_ensure dm f h)

theorem iterEvals_keys (dm : DataManager) (h : FieldsOK dm) :
    (iterEvals dm).map Evaluation.key = iterFields dm := by
  unfold iterEvals iterFields
  rw [List.map_map]
  refine List.map_congr_left ?_
  intro p hp
  simp only [Function.comp_apply]
  rw [FieldManager.evaluate_key]
  exact h p hp

/-- C10 amended: iterating the ledger yields exactly one Evaluation per field
that was ever passed to insert OR to evaluate (evaluate lazily creates the
field), keyed by that field, in first-touch order with no duplicates. -/
theorem ledger_iteration_amended (ops : List DMOp) :
    iterFields (applyDM ⟨[]⟩ ops) = dedupAppend [] (touchedFields ops) ∧
    (iterEvals (applyDM ⟨[]⟩ ops)).map Evaluation.key =
      dedupAppend [] (touchedFields ops) ∧
    (iterFields (applyDM ⟨[]⟩ ops)).Nodup := by
  have h1 : iterFields (applyDM ⟨[]⟩ ops) = dedupAppend [] (touchedFields ops) := by
    have := applyDM_fields ops ⟨[]⟩
    simpa [iterFields] using this
  have hok : FieldsOK (applyDM ⟨[]⟩ ops) :=
    fieldsOK_applyDM ops ⟨[]⟩ (fun p hp => absurd hp (List.not_mem_nil p))
  refine ⟨h1, ?_, ?_⟩
  · rw [iterEvals_keys _ hok, h1]
  · rw [h1]; exact nodup_dedupAppend _ [] List.nodup_nil

theorem firstDefined_eq_find (l : List PVal) (dflt : PVal) :
    firstDefined l dflt = (l.find? (fun v => !v.isNone)).getD dflt := by
  induction l with
  | nil => rfl
  | cons v rest ih =>
      by_cases hv : v.isNone = true
      · simp [firstDefined, List.find?, hv, ih]
      · simp only [Bool.not_eq_true] at hv
        simp [firstDefined, List.find?, hv]

theorem dictGet_of_not_hasKey (sec : List (String × PVal)) (g : String)
    (hk : dictHasKey sec g = false) : dictGet sec g = PVal.none := by
  induction sec with
  | nil => rfl
  | cons p rest ih =>
      rw [dictHasKey] at hk
      simp only [List.any_cons, Bool.or_eq_false_iff, beq_eq_false_iff_ne, ne_eq] at hk
      rw [dictGet, if_neg hk.1]
      exact ih (by rw [dictHasKey]; simp [hk.2])

theorem sectionPrefs_ok (sec : List (String × PVal)) (other : Option String)
    (key : String) (h : sectionOK sec other = true) :
    sectionPrefs sec other key = .ok [specSub sec other key, dictGet sec key] := by
  cases other with
  | none => rfl
  | some g =>
      by_cases hk : dictHasKey sec g = true
      · rw [sectionOK] at h
        simp only [hk, Bool.not_true, Bool.false_or] at h
        cases hsq : dictGet sec g with
        | dict sub => simp [sectionPrefs, hk, hsq, specSub, PVal.toDictD]
        | none => rw [hsq] at h; simp [PVal.isDict] at h
        | bool b => rw [hsq] at h; simp [PVal.isDict] at h
        | str s => rw [hsq] at h; simp [PVal.isDict] at h
        | strList l => rw [hsq] at h; simp [PVal.isDict] at h
      · simp only [Bool.not_eq_true] at hk
        have hg := dictGet_of_not_hasKey sec g hk
        simp [sectionPrefs, hk, specSub, hg, PVal.toDictD, dictGet]

theorem selectStep (l : List PVal) (dflt : PVal) :
    (match l.find? (fun v => !v.isNone) with
     | some v => (Except.ok v : Except String PVal)
     | Option.none => .ok dflt) = .ok (firstDefined l dflt) := by
  rw [firstDefined_eq_find]
  cases hF : l.find? (fun v => !v.isNone) with
  | some v => simp [hF]
  | none => simp [hF]

theorem get_single_key_chain (info : List (String × PVal)) (key : String)
    (skill game_mode : Option String)
    (hkey : dictHasKey VALID_KEYS key = true)
    (hskill : skill = Option.none ∨ SKILL_OPTIONS.contains (skill.getD "") = true)
    (hgm : game_mode = Option.none ∨ GAME_MODE_OPTIONS.contains (game_mode.getD "") = true)
    (hacc : accessOK info skill game_mode = true) :
    get_single_key_for_map info key skill game_mode true =
      .ok (firstDefined
        [subScopeVal info key skill game_mode,
         singleScopeVal info key skill game_mode,
         levelDefaultVal info key] (dictGet VALID_KEYS key)) := by
  have h2 : (optTruthy skill && !(SKILL_OPTIONS.contains (skill.getD ""))) = false := by
    rcases hskill with h | h
    · subst h; rfl
    · have hm : skill.getD "" ∈ SKILL_OPTIONS := by simpa using h
      simp [hm]
  have h3 : (optTruthy game_mode &&
      !(GAME_MODE_OPTIONS.contains (game_mode.getD ""))) = false := by
    rcases hgm with h | h
    · subst h; rfl
    · have hm : game_mode.getD "" ∈ GAME_MODE_OPTIONS := by simpa using h
      simp [hm]
  by_cases hs : optMem skill info = true
  · rw [accessOK, if_pos hs] at hacc
    obtain ⟨hd, hsec⟩ := Bool.and_eq_true_iff.mp hacc
    cases heq : dictGet info (skill.getD "") with
    | dict sec =>
        rw [heq] at hsec
        have hvp : valuePrefs info key skill game_mode =
            .ok [specSub sec game_mode key, dictGet sec key] := by
          rw [valuePrefs, if_pos hs, heq]
          exact sectionPrefs_ok sec game_mode key (by simpa [PVal.toDictD] using hsec)
        have hS1 : subScopeVal info key skill game_mode = specSub sec game_mode key := by
          rw [subScopeVal, if_pos hs, heq]
          rfl
        have hS2 : singleScopeVal info key skill game_mode = dictGet sec key := by
          rw [singleScopeVal, if_pos hs, heq]
          rfl
        rw [get_single_key_for_map]
        simp only [hkey, h2, h3, Bool.not_true, Bool.false_eq_true, if_false, hvp,
          hS1, hS2, levelDefaultVal, List.cons_append, List.nil_append]
        exact selectStep _ _
    | none => rw [heq] at hd; simp [PVal.isDict] at hd
    | bool b => rw [heq] at hd; simp [PVal.isDict] at hd
    | str s => rw [heq] at hd; simp [PVal.isDict] at hd
    | strList l => rw [heq] at hd; simp [PVal.isDict] at hd
  · simp only [Bool.not_eq_true] at hs
    by_cases hg : optMem game_mode info = true
    · rw [accessOK, if_neg (by simp [hs]), if_pos hg] at hacc
      obtain ⟨hd, hsec⟩ := Bool.and_eq_true_iff.mp hacc
      cases heq : dictGet info (game_mode.getD "") with
      | dict sec =>
          rw [heq] at hsec
          have hvp : valuePrefs info key skill game_mode =
              .ok [specSub sec skill key, dictGet sec key] := by
            rw [valuePrefs, if_neg (by simp [hs]), if_pos hg, heq]
            exact sectionPrefs_ok sec skill key (by simpa [PVal.toDictD] using hsec)
          have hS1 : subScopeVal info key skill game_mode = specSub sec skill key := by
            rw [subScopeVal, if_neg (by simp [hs]), if_pos hg, heq]
            rfl
          have hS2 : singleScopeVal info key skill game_mode = dictGet sec key := by
            rw [singleScopeVal, if_neg (by simp [hs]), if_pos hg, heq]
            rfl
          rw [get_single_key_for_map]
          simp only [hkey, h2, h3, Bool.not_true, Bool.false_eq_true, if_false, hvp,
            hS1, hS2, levelDefaultVal, List.cons_append, List.nil_append]
          exact selectStep _ _
      | none => rw [heq] at hd; simp [PVal.isDict] at hd
      | bool b => rw [heq] at hd; simp [PVal.isDict] at hd
      | str s => rw [heq] at hd; simp [PVal.isDict] at hd
      | strList l => rw [heq] at hd; simp [PVal.isDict] at hd
    · simp only [Bool.not_eq_true] at hg
      have hvp : valuePrefs info key skill game_mode = .ok [] := by
        rw [valuePrefs, if_neg (by simp [hs]), if_neg (by simp [hg])]
      have hS1 : subScopeVal info key skill game_mode = .none := by
        rw [subScopeVal, if_neg (by simp [hs]), if_neg (by simp [hg])]
      have hS2 : singleScopeVal info key skill game_mode = .none := by
        rw [singleScopeVal, if_neg (by simp [hs]), if_neg (by simp [hg])]
      rw [get_single_key_for_map]
      simp only [hkey, h2, h3, Bool.not_true, Bool.false_eq_true, if_false, hvp,
        hS1, hS2, levelDefaultVal, List.nil_append]
      have hskip : firstDefined
          [PVal.none, PVal.none, dictGet info key] (dictGet VALID_KEYS key) =
          firstDefined [dictGet info key] (dictGet VALID_KEYS key) := by
        simp [firstDefined, PVal.isNone]
      rw [hskip]
      exact selectStep _ _

/-- C5: for valid key, skill and game-mode arguments on a well-formed config,
get_single_key_for_map returns the value at the most specific applicable
scope (skill+game-mode sub-scope, then the single scope section, then the
level default, then the compiled-in default), treating null as undefined;
with the most specific value undefined the result is exactly the next most
specific defined one, and the compiled-in default is returned only when no
scope defines a value. -/
theorem rule_lookup_most_specific (info : List (String × PVal)) (key : String)
    (skill game_mode : Option String)
    (hkey : dictHasKey VALID_KEYS key = true)
    (hskill : skill = Option.none ∨ SKILL_OPTIONS.contains (skill.getD "") = true)
    (hgm : game_mode = Option.none ∨ GAME_MODE_OPTIONS.contains (game_mode.getD "") = true)
    (hacc : accessOK info skill game_mode = true) :
    (get_single_key_for_map info key skill game_mode true =
      .ok (firstDefined
        [subScopeVal info key skill game_mode,
         singleScopeVal info key skill game_mode,
         levelDefaultVal info key] (dictGet VALID_KEYS key))) ∧
    ((subScopeVal info key skill game_mode).isNone = false →
      get_single_key_for_map info key skill game_mode true =
        .ok (subScopeVal info key skill game_mode)) ∧
    ((subScopeVal info key skill game_mode).isNone = true →
      (singleScopeVal info key skill game_mode).isNone = false →
      get_single_key_for_map info key skill game_mode true =
        .ok (singleScopeVal info key skill game_mode)) ∧
    ((subScopeVal info key skill game_mode).isNone = true →
      (singleScopeVal info key skill game_mode).isNone = true →
      (levelDefaultVal info key).isNone = false →
      get_single_key_for_map info key skill game_mode true =
        .ok (levelDefaultVal info key)) ∧
    ((subScopeVal info key skill game_mode).isNone = true →
      (singleScopeVal info key skill game_mode).isNone = true →
      (levelDefaultVal info key).isNone = true →
      get_single_key_for_map info key skill game_mode true =
        .ok (dictGet VALID_KEYS key)) := by
  have h := get_single_key_chain info key skill game_mode hkey hskill hgm hacc
  refine ⟨h, ?_, ?_, ?_, ?_⟩
  · intro h1; rw [h]; simp [firstDefined, h1]
  · intro h1 h2; rw [h]; simp [firstDefined, h1, h2]
  · intro h1 h2 h3; rw [h]; simp [firstDefined, h1, h2, h3]
  · intro h1 h2 h3; rw [h]; simp [firstDefined, h1, h2, h3]

/-- Witness for C5: on the concrete config, the skill+game-mode sub-scope
value wins; removing it (querying a key it does not define) falls to the next
scope. -/
theorem rule_lookup_most_specific_witness :
    get_single_key_for_map wadInfoExample "tyson_only" (some "easy") (some "coop") true =
      Except.ok (PVal.bool true) := by
  have h := (rule_lookup_most_specific wadInfoExample "tyson_only"
    (some "easy") (some "coop") (by rfl) (Or.inr (by rfl)) (Or.inr (by rfl)) (by rfl)).1
  rw [h]
  rfl

theorem except_bind_ok {α β : Type} (a : α) (f : α → Except String β) :
    (Except.ok a : Except String α) >>= f = f a := rfl

theorem except_pure_eq {α : Type} (a : α) : (pure a : Except String α) = Except.ok a := rfl

theorem orCat_ok (cats : PVal) (h : pyInOK cats = true) (flag : PVal) (category : String) :
    ∃ b, orCat flag cats category = .ok b := by
  by_cases hf : flag.truthy = true
  · exact ⟨true, by simp [orCat, hf]⟩
  · cases cats with
    | bool b => simp [pyInOK] at h
    | none => exact ⟨false, by rw [orCat, if_neg hf]; rfl⟩
    | str s =>
        exact ⟨subListCheck category.toList s.toList, by rw [orCat, if_neg hf]; rfl⟩
    | strList l => exact ⟨l.contains category, by rw [orCat, if_neg hf]; rfl⟩
    | dict d => exact ⟨dictHasKey d category, by rw [orCat, if_neg hf]; rfl⟩

theorem jumpwadAllItems_ok (stats : List Stats) (h : statsOK stats = true) :
    ∃ b, jumpwadAllItems stats = .ok b := by
  induction stats with
  | nil => exact ⟨true, rfl⟩
  | cons s rest ih =>
      rw [statsOK, List.all_cons, Bool.and_eq_true_iff] at h
      obtain ⟨h1, h2⟩ := h
      have hlen : (pySplitChar '/' s.items).length = 2 := by simpa using h1
      obtain ⟨a, b, hab⟩ := List.length_eq_two.mp hlen
      by_cases hne : a = b
      · simp only [jumpwadAllItems, hab, hne, ne_eq, not_true_eq_false, if_false]
        exact ih (by rw [statsOK]; exact h2)
      · exact ⟨false, by simp [jumpwadAllItems, hab, hne]⟩

theorem jumpwadStep_id (wad : String) (stats : List Stats) (category2 : String)
    (h : statsOK stats = true) (h1 : category2 ≠ "UV Max") (h2 : category2 ≠ "Pacifist") :
    jumpwadStep wad stats category2 = .ok category2 := by
  rw [jumpwadStep]
  by_cases hw : (wad == "jumpwad") = true
  · rw [if_pos hw]
    obtain ⟨b, hb⟩ := jumpwadAllItems_ok stats h
    have hc1 : (category2 == "UV Max") = false := by simp [h1]
    have hc2 : (category2 == "Pacifist") = false := by simp [h2]
    simp [hb, except_bind_ok, hc1, hc2, except_pure_eq]
  · simp only [Bool.not_eq_true] at hw
    rw [if_neg (by simp [hw])]
    rfl

theorem realityNotes_ok (map_info_dict : List (String × PVal))
    (skill game_mode : Option String)
    (hskill : skill = Option.none ∨ SKILL_OPTIONS.contains (skill.getD "") = true)
    (hgm : game_mode = Option.none ∨ GAME_MODE_OPTIONS.contains (game_mode.getD "") = true)
    (hacc : accessOK map_info_dict skill game_mode = true)
    (hca : lookupCatOK map_info_dict skill game_mode
      "skip_almost_reality_for_categories" = true)
    (raw : RawData) (is_nomo srf : Bool) (category1 : String) (notes : List String) :
    ∃ n, realityNotes map_info_dict skill game_mode raw is_nomo srf category1 notes =
      .ok n := by
  rw [realityNotes]
  by_cases hr : raw.reality.getD false = true
  · rw [if_pos hr]
    by_cases hn : is_nomo = true
    · obtain ⟨v, hv⟩ : ∃ v, get_single_key_for_map map_info_dict "add_reality_in_nomo"
          skill game_mode true = Except.ok v :=
        ⟨_, get_single_key_chain map_info_dict _ skill game_mode rfl hskill hgm hacc⟩
      exact ⟨_, by rw [if_pos hn, hv]; rfl⟩
    · exact ⟨_, by rw [if_neg hn]; rfl⟩
  · rw [if_neg hr]
    by_cases ha : raw.almost_reality.getD false = true
    · rw [if_pos ha]
      obtain ⟨v1, hv1⟩ : ∃ v, get_single_key_for_map map_info_dict "skip_almost_reality"
          skill game_mode true = Except.ok v :=
        ⟨_, get_single_key_chain map_info_dict _ skill game_mode rfl hskill hgm hacc⟩
      obtain ⟨v2, hv2⟩ : ∃ v, get_single_key_for_map map_info_dict
          "skip_almost_reality_for_categories" skill game_mode true = Except.ok v :=
        ⟨_, get_single_key_chain map_info_dict _ skill game_mode rfl hskill hgm hacc⟩
      have hpy : pyInOK v2 = true := by
        rw [lookupCatOK, hv2] at hca
        exact hca
      obtain ⟨b, hbo⟩ := orCat_ok v2 hpy v1 category1
      by_cases hn : is_nomo = true
      · obtain ⟨v3, hv3⟩ : ∃ v, get_single_key_for_map map_info_dict
            "add_almost_reality_in_nomo" skill game_mode true = Except.ok v :=
          ⟨_, get_single_key_chain map_info_dict _ skill game_mode rfl hskill hgm hacc⟩
        exact ⟨_, by rw [hv1, except_bind_ok, hv2, except_bind_ok, hbo, except_bind_ok,
          if_pos hn, hv3]; rfl⟩
      · exact ⟨_, by rw [hv1, except_bind_ok, hv2, except_bind_ok, hbo, except_bind_ok,
          if_neg hn]; rfl⟩
    · rw [if_neg ha]
      exact ⟨notes, rfl⟩

/-- C4: on a successful single-level replay with tyson_weapons and 100k both
true in the analysis, a rule table not marking the level tyson_only, and a
raw category guess of UV Max, _parse_raw_data sets the final category to
Tyson. -/
theorem tyson_category_correction (map_info_dict : List (String × PVal))
    (skill game_mode : Option String) (st : PlaybackState) (lvl : String)
    (hskill : skill = Option.none ∨ SKILL_OPTIONS.contains (skill.getD "") = true)
    (hgm : game_mode = Option.none ∨ GAME_MODE_OPTIONS.contains (game_mode.getD "") = true)
    (hacc : accessOK map_info_dict skill game_mode = true)
    (hcats : catsOK map_info_dict skill game_mode = true)
    (hstats : statsOK st.raw.stats = true)
    (hlvl : st.raw.affected_levels = [lvl])
    (htw : st.raw.tyson_weapons.getD false = true)
    (hk100 : st.raw.k100.getD false = true)
    (htys : ∀ v, get_single_key_for_map map_info_dict "tyson_only" skill game_mode true =
        Except.ok v → v.truthy = false)
    (hcat : st.category = "UV Max") :
    ∃ st2, parse_raw_data map_info_dict skill game_mode st = .ok st2 ∧
      st2.category = "Tyson" := by
  rw [catsOK, Bool.and_eq_true_iff, Bool.and_eq_true_iff] at hcats
  obtain ⟨⟨hc1, hc2⟩, hc3⟩ := hcats
  obtain ⟨vT, eT⟩ : ∃ v, get_single_key_for_map map_info_dict "tyson_only" skill
      game_mode true = Except.ok v :=
    ⟨_, get_single_key_chain map_info_dict _ skill game_mode rfl hskill hgm hacc⟩
  obtain ⟨vSR, eSR⟩ : ∃ v, get_single_key_for_map map_info_dict "skip_reality" skill
      game_mode true = Except.ok v :=
    ⟨_, get_single_key_chain map_info_dict _ skill game_mode rfl hskill hgm hacc⟩
  obtain ⟨vSRC, eSRC⟩ : ∃ v, get_single_key_for_map map_info_dict
      "skip_reality_for_categories" skill game_mode true = Except.ok v :=
    ⟨_, get_single_key_chain map_info_dict _ skill game_mode rfl hskill hgm hacc⟩
  obtain ⟨vSAP, eSAP⟩ : ∃ v, get_single_key_for_map map_info_dict "skip_also_pacifist"
      skill game_mode true = Except.ok v :=
    ⟨_, get_single_key_chain map_info_dict _ skill game_mode rfl hskill hgm hacc⟩
  obtain ⟨vSAPC, eSAPC⟩ : ∃ v, get_single_key_for_map map_info_dict
      "skip_also_pacifist_for_categories" skill game_mode true = Except.ok v :=
    ⟨_, get_single_key_chain map_info_dict _ skill game_mode rfl hskill hgm hacc⟩
  have hpy1 : pyInOK vSRC = true := by rw [lookupCatOK, eSRC] at hc1; exact hc1
  have hpy3 : pyInOK vSAPC = true := by rw [lookupCatOK, eSAPC] at hc3; exact hc3
  have htv : vT.truthy = false := htys vT eT
  obtain ⟨b1, hb1⟩ := orCat_ok vSRC hpy1 vSR "Tyson"
  obtain ⟨n1, hn1⟩ := realityNotes_ok map_info_dict skill game_mode hskill hgm hacc hc2
    st.raw (st.raw.nomonsters.getD false) b1 "Tyson" st.note_strings
  obtain ⟨b2, hb2⟩ := orCat_ok vSAPC hpy3 vSAP "Tyson"
  have hjw : jumpwadStep st.wad st.raw.stats "Tyson" = .ok "Tyson" :=
    jumpwadStep_id _ _ _ hstats (by decide) (by decide)
  have hTS : ("Tyson" == "UV Speed") = false := rfl
  have hEx : ∃ n, parse_raw_data map_info_dict skill game_mode st =
      Except.ok { st with category := "Tyson", note_strings := n } := by
    apply Exists.intro
    rw [parse_raw_data, if_neg (by rw [hlvl]; simp),
      if_neg (by rw [hlvl]; simp [List.isEmpty])]
    rw [htw, hk100]
    simp only [Bool.and_self, if_true, eT, except_bind_ok, htv, Bool.not_false, hcat,
      beq_self_eq_true, Bool.and_true, Bool.true_and, except_pure_eq, eSR, eSRC, hb1,
      hn1, eSAP, eSAPC, hb2, hTS, Bool.and_false, Bool.false_eq_true, if_false, hjw]
    rfl
  obtain ⟨n2, hMain⟩ := hEx
  exact ⟨_, hMain, rfl⟩

/-- Witness for C4 at a concrete single-level replay with an empty rule
table (tyson_only defaults to false). -/
theorem tyson_category_correction_witness :
    ∃ st2, parse_raw_data [] Option.none Option.none stTyson = .ok st2 ∧
      st2.category = "Tyson" := by
  apply tyson_category_correction [] Option.none Option.none stTyson "Map 01"
    (Or.inl rfl) (Or.inl rfl) rfl rfl rfl rfl rfl rfl
  · intro v hv
    have h0 : get_single_key_for_map ([] : List (String × PVal)) "tyson_only"
        Option.none Option.none true = Except.ok (PVal.bool false) := rfl
    rw [h0] at hv
    cases hv
    rfl
  · rfl

/-- C8: on a successful single-level replay whose raw category guess is
UV Speed and whose analysis defines the stroller flag, _parse_raw_data sets
the final category to Stroller exactly when the flag is set, and keeps the
UV Speed guess otherwise. -/
theorem stroller_category_correction (map_info_dict : List (String × PVal))
    (skill game_mode : Option String) (st : PlaybackState) (lvl : String) (b : Bool)
    (hskill : skill = Option.none ∨ SKILL_OPTIONS.contains (skill.getD "") = true)
    (hgm : game_mode = Option.none ∨ GAME_MODE_OPTIONS.contains (game_mode.getD "") = true)
    (hacc : accessOK map_info_dict skill game_mode = true)
    (hcats : catsOK map_info_dict skill game_mode = true)
    (hstats : statsOK st.raw.stats = true)
    (hlvl : st.raw.affected_levels = [lvl])
    (hstrol : st.raw.stroller = some b)
    (hcat : st.category = "UV Speed") :
    ∃ st2, parse_raw_data map_info_dict skill game_mode st = .ok st2 ∧
      st2.category = (if b then "Stroller" else "UV Speed") := by
  rw [catsOK, Bool.and_eq_true_iff, Bool.and_eq_true_iff] at hcats
  obtain ⟨⟨hc1, hc2⟩, hc3⟩ := hcats
  obtain ⟨vT, eT⟩ : ∃ v, get_single_key_for_map map_info_dict "tyson_only" skill
      game_mode true = Except.ok v :=
    ⟨_, get_single_key_chain map_info_dict _ skill game_mode rfl hskill hgm hacc⟩
  obtain ⟨vSR, eSR⟩ : ∃ v, get_single_key_for_map map_info_dict "skip_reality" skill
      game_mode true = Except.ok v :=
    ⟨_, get_single_key_chain map_info_dict _ skill game_mode rfl hskill hgm hacc⟩
  obtain ⟨vSRC, eSRC⟩ : ∃ v, get_single_key_for_map map_info_dict
      "skip_reality_for_categories" skill game_mode true = Except.ok v :=
    ⟨_, get_single_key_chain map_info_dict _ skill game_mode rfl hskill hgm hacc⟩
  obtain ⟨vSAP, eSAP⟩ : ∃ v, get_single_key_for_map map_info_dict "skip_also_pacifist"
      skill game_mode true = Except.ok v :=
    ⟨_, get_single_key_chain map_info_dict _ skill game_mode rfl hskill hgm hacc⟩
  obtain ⟨vSAPC, eSAPC⟩ : ∃ v, get_single_key_for_map map_info_dict
      "skip_also_pacifist_for_categories" skill game_mode true = Except.ok v :=
    ⟨_, get_single_key_chain map_info_dict _ skill game_mode rfl hskill hgm hacc⟩
  have hpy1 : pyInOK vSRC = true := by rw [lookupCatOK, eSRC] at hc1; exact hc1
  have hpy3 : pyInOK vSAPC = true := by rw [lookupCatOK, eSAPC] at hc3; exact hc3
  obtain ⟨b1, hb1⟩ := orCat_ok vSRC hpy1 vSR "UV Speed"
  obtain ⟨n1, hn1⟩ := realityNotes_ok map_info_dict skill game_mode hskill hgm hacc hc2
    st.raw (st.raw.nomonsters.getD false) b1 "UV Speed" st.note_strings
  obtain ⟨b2, hb2⟩ := orCat_ok vSAPC hpy3 vSAP (if b then "Stroller" else "UV Speed")
  have hjw : jumpwadStep st.wad st.raw.stats (if b then "Stroller" else "UV Speed") =
      .ok (if b then "Stroller" else "UV Speed") :=
    jumpwadStep_id _ _ _ hstats (by cases b <;> decide) (by cases b <;> decide)
  have hUM : ("UV Speed" == "UV Max") = false := rfl
  have hEx : ∃ n, parse_raw_data map_info_dict skill game_mode st =
      Except.ok { st with category := (if b then "Stroller" else "UV Speed"),
                          note_strings := n } := by
    apply Exists.intro
    rw [parse_raw_data, if_neg (by rw [hlvl]; simp),
      if_neg (by rw [hlvl]; simp [List.isEmpty])]
    by_cases hty : (st.raw.tyson_weapons.getD false && st.raw.k100.getD false) = true
    · rw [hty]
      simp only [if_true, eT, except_bind_ok, hcat, hUM, Bool.and_false, Bool.false_eq_true,
        if_false, except_pure_eq, eSR, eSRC, hb1, hn1, hstrol, Option.getD_some,
        beq_self_eq_true, Bool.and_true, eSAP, eSAPC, hb2, hjw]
      rfl
    · simp only [Bool.not_eq_true] at hty
      rw [hty]
      simp only [Bool.false_eq_true, if_false, except_pure_eq, except_bind_ok, hcat,
        eSR, eSRC, hb1, hn1, hstrol, Option.getD_some, beq_self_eq_true, Bool.and_true,
        eSAP, eSAPC, hb2, hjw]
  obtain ⟨n2, hMain⟩ := hEx
  exact ⟨_, hMain, rfl⟩

/-- Witness for C8 at concrete runs with and without the stroller flag. -/
theorem stroller_category_correction_witness :
    (∃ st2, parse_raw_data [] Option.none Option.none (stStroller true) = .ok st2 ∧
      st2.category = "Stroller") ∧
    (∃ st2, parse_raw_data [] Option.none Option.none (stStroller false) = .ok st2 ∧
      st2.category = "UV Speed") := by
  constructor
  · exact stroller_category_correction [] Option.none Option.none (stStroller true)
      "Map 01" true (Or.inl rfl) (Or.inl rfl) rfl rfl rfl rfl rfl rfl
  · exact stroller_category_correction [] Option.none Option.none (stStroller false)
      "Map 01" false (Or.inl rfl) (Or.inl rfl) rfl rfl rfl rfl rfl rfl

/-- C2 (code bug): with two candidates both agreeing with the local record on
the full composite key, the matcher does not report an ambiguous match: it
selects the first candidate.  Moreover a candidate that disagrees with the
local record on every non-time component is still selected, because the
comparison loop only ever clears found_match on the time component. -/
theorem match_resolver_divergence :
    (resolveMatch localKeyEx [djEx, djEx] = some djEx ∧
      [djEx, djEx].length = 2 ∧
      (∀ dj ∈ [djEx, djEx], agreesOnPrefix localKeyEx 5 dj)) ∧
    (resolveMatch localKeyEx [djDiff] = some djDiff ∧
      (∀ k, 1 ≤ k → ¬ agreesOnPrefix localKeyEx k djDiff)) := by
  refine ⟨⟨by rfl, rfl, ?_⟩, ⟨by rfl, ?_⟩⟩
  · intro dj hdj
    rcases List.mem_cons.mp hdj with h | h
    · rw [h]; rfl
    · simp at h; rw [h]; rfl
  · intro k hk hag
    rw [agreesOnPrefix] at hag
    have h0 : (djVals djDiff).take k ≠ localKeyEx.take k := by
      cases k with
      | zero => omega
      | succ n =>
          intro hEq
          simp [djVals, djDiff, localKeyEx] at hEq
    exact h0 hag

/-- C3 counterexample: a truncated ZDoom-signature file (just the four bytes
FORM) makes source-port derivation hit a missing header offset, and a file
with no 0x80 sentinel makes the footer scan seek before the file start; both
raise instead of degrading to absent facts. -/
theorem binary_parse_counterexample :
    analyzeBinary [70, 79, 82, 77] Option.none (-1) =
      .error "IndexError: header index out of range" ∧
    analyzeBinary [0] Option.none (-1) = .error "OSError: negative seek" :=
  ⟨rfl, rfl⟩

theorem except_bind_exists2 {α β : Type} {e : Except String α} {f : α → Except String β}
    (a : α) (ha : e = .ok a) (hf : ∃ r, f a = .ok r) : ∃ r, (e >>= f) = .ok r := by
  obtain ⟨r, hr⟩ := hf
  exact ⟨r, by rw [ha, except_bind_ok, hr]⟩

theorem except_bind_exists {α β : Type} {e : Except String α} {f : α → Except String β}
    (he : ∃ a, e = .ok a) (hf : ∀ a, ∃ r, f a = .ok r) : ∃ r, (e >>= f) = .ok r := by
  obtain ⟨a, ha⟩ := he
  exact except_bind_exists2 a ha (hf a)

theorem scanBack_ok (bytes : List Nat) :
    ∀ i, (∃ j, j ≤ i ∧ bytes.getD j 0 = 128) → ∃ f, scanBack bytes i = .ok f := by
  intro i
  induction i with
  | zero =>
      rintro ⟨j, hj, hb⟩
      have hj0 : j = 0 := by omega
      subst hj0
      exact ⟨[], by rw [scanBack, if_pos hb]⟩
  | succ n ih =>
      rintro ⟨j, hj, hb⟩
      by_cases hcur : bytes.getD (n + 1) 0 = 128
      · exact ⟨[], by rw [scanBack, if_pos hcur]⟩
      · have hj2 : j ≤ n := by
          rcases Nat.lt_succ_iff_lt_or_eq.mp (Nat.lt_succ_of_le hj) with h | h
          · omega
          · exact absurd (h ▸ hb) hcur
        obtain ⟨f, hf⟩ := ih ⟨j, hj2, hb⟩
        exact ⟨f ++ [bytes.getD (n + 1) 0], by rw [scanBack, if_neg hcur, hf]; rfl⟩

theorem check_doom_ok (header : List Nat) (h3 : 3 ≤ header.length) :
    ∃ b, check_doom_1_2_or_before header = .ok b := by
  rw [check_doom_1_2_or_before, if_neg (by omega)]
  dsimp only
  split
  · exact ⟨_, rfl⟩
  · split
    · exact ⟨_, rfl⟩
    · split
      · exact ⟨_, rfl⟩
      · exact ⟨_, rfl⟩

theorem versionChecks_ok (header : List Nat) (raw_version : Int) (port0 : Option String)
    (h3 : 3 ≤ header.length) :
    ∃ r, versionChecks header raw_version port0 = .ok r := by
  rw [versionChecks]
  by_cases h04 : 0 ≤ raw_version ∧ raw_version ≤ 4
  · obtain ⟨b, hb⟩ := check_doom_ok header h3
    rw [if_pos h04]
    exact ⟨_, by rw [hb, except_bind_ok]; rfl⟩
  · rw [if_neg h04]
    by_cases h110 : raw_version = 110
    · rw [if_pos h110]; exact ⟨_, rfl⟩
    · rw [if_neg h110]; exact ⟨_, rfl⟩

theorem get_source_port_ok (header : List Nat) (family : String)
    (complevel : Option String) (raw_version : Int)
    (hz : isZdoomHeader header = false) (h3 : 3 ≤ header.length)
    (hfam : famOK family = true) :
    ∃ r, get_source_port header family complevel raw_version = .ok r := by
  rw [get_source_port]
  rw [if_neg (by simp [hz])]
  by_cases hempty : family = ""
  · rw [if_neg (by simp [hempty])]
    exact versionChecks_ok header raw_version Option.none h3
  · rw [if_pos hempty]
    by_cases hx : subListCheck "XDRE".toList family.toList = true
    · rw [if_pos hx]
      exact versionChecks_ok header raw_version _ h3
    · rw [if_neg hx]
      have hlen2 : (pySplitMax2 family).length = 2 := by
        rw [famOK] at hfam
        simp only [Bool.or_eq_true, beq_iff_eq] at hfam
        rcases hfam with (h | h) | h
        · exact absurd h hempty
        · exact absurd h hx
        · simpa using h
      obtain ⟨a, b, hab⟩ := List.length_eq_two.mp hlen2
      simp only [hab]
      by_cases h1 : (complevel.getD "") = ""
      · rw [if_pos h1]
        by_cases h2 : raw_version = 203
        · rw [if_pos h2, if_neg (show ¬(header.length < 3) by omega)]
          by_cases h3c : Char.ofNat (header.getD 2 0) = 'M'
          · rw [if_pos h3c]
            exact ⟨_, rfl⟩
          · rw [if_neg h3c, except_pure_eq, except_bind_ok,
              if_neg (by simp [h1])]
            exact versionChecks_ok header raw_version Option.none h3
        · rw [if_neg h2, except_pure_eq, except_bind_ok]
          by_cases hc : ((VERSION_COMPLEVEL_MAP.lookup raw_version).getD "") ≠ ""
          · rw [if_pos hc]; exact ⟨_, rfl⟩
          · rw [if_neg hc]
            exact versionChecks_ok header raw_version Option.none h3
      · rw [if_neg h1, except_pure_eq, except_bind_ok, if_pos h1]
        exact ⟨_, rfl⟩

/-- C3 amended: the parse is not total.  It completes exactly on inputs that
either carry the ZDoom signature with a full 22-byte header, or carry no
ZDoom signature but contain the 0x80 sentinel, span at least three bytes and
have a well-splitting port-family footer line; a ZDoom-signature file shorter
than 22 bytes, or a sentinel-free file, raises (binary_parse_counterexample)
instead of contributing no fact. -/
theorem binary_parse_amended (bytes : List Nat) (complevel : Option String)
    (raw_version : Int)
    (h : (isZdoomHeader (bytes.take 22) = true ∧ 22 ≤ bytes.length) ∨
         (isZdoomHeader (bytes.take 22) = false ∧ 128 ∈ bytes ∧ 3 ≤ bytes.length ∧
           famOK (sourcePortFamilyOf (decodeIgnore (footerOfBytes bytes))) = true)) :
    ∃ r, analyzeBinary bytes complevel raw_version = .ok r := by
  rcases h with ⟨hz, hlen⟩ | ⟨hz, hmem, hlen, hfam⟩
  · have hhf : get_header_and_footer bytes = .ok (bytes.take 22, []) := by
      rw [get_header_and_footer, if_pos hz]
    have h22 : (bytes.take 22).length = 22 := by rw [List.length_take]; omega
    have hzt : isZdoomHeader (bytes.take 22) = true := hz
    apply Exists.intro
    rw [analyzeBinary, hhf, except_bind_ok]
    dsimp only
    rw [get_source_port, if_pos hzt, if_neg (by omega)]
    rw [except_bind_ok]
    rfl
  · cases hblen : bytes.length with
    | zero =>
        exfalso
        have : bytes = [] := List.length_eq_zero.mp hblen
        rw [this] at hmem
        exact absurd hmem (List.not_mem_nil 128)
    | succ n =>
        have hsc : ∃ f, scanBack bytes n = .ok f := by
          apply scanBack_ok
          obtain ⟨⟨j, hjlt⟩, hj⟩ := List.mem_iff_get.mp hmem
          refine ⟨j, by omega, ?_⟩
          rw [List.getD_eq_getD_get?, List.get?_eq_get hjlt]
          simpa using hj
        obtain ⟨f, hf⟩ := hsc
        have hhf : get_header_and_footer bytes = .ok (bytes.take 22, f) := by
          rw [get_header_and_footer, if_neg (by simp [hz])]
          simp only [hblen, hf]
          rfl
        have hfam2 : famOK (sourcePortFamilyOf (decodeIgnore f)) = true := by
          have : footerOfBytes bytes = f := by rw [footerOfBytes, hhf]
          rwa [this] at hfam
        have h3 : 3 ≤ (bytes.take 22).length := by rw [List.length_take]; omega
        obtain ⟨r, hr⟩ := get_source_port_ok (bytes.take 22)
          (sourcePortFamilyOf (decodeIgnore f)) complevel raw_version hz h3 hfam2
        apply Exists.intro
        rw [analyzeBinary, hhf, except_bind_ok]
        dsimp only
        rw [hr, except_bind_ok]
        rfl

/-- Witness for the C3 amended claim: a well-formed non-ZDoom input (footer
"Woof 14.5" after the 0x80 sentinel) and a full-length ZDoom header both
parse successfully. -/
theorem binary_parse_amended_witness :
    (∃ r, analyzeBinary
      [4, 109, 1, 1, 128, 87, 111, 111, 102, 32, 49, 52, 46, 53]
      Option.none (-1) = .ok r) ∧
    (∃ r, analyzeBinary
      [70, 79, 82, 77, 0, 0, 0, 0, 0, 0, 0, 0, 0, 0, 0, 0, 0, 0, 0, 0, 1, 11]
      Option.none (-1) = .ok r) := by
  constructor
  · exact binary_parse_amended _ Option.none (-1)
      (Or.inr ⟨rfl, by decide, by decide, rfl⟩)
  · exact binary_parse_amended _ Option.none (-1)
      (Or.inl ⟨rfl, by decide⟩)

/-- C6 counterexample: replay=NoMo vs textfile=NoMo 100S on an all-zero
secrets level resolves to the replay value NoMo, not to NoMo 100S as the
claim states (has_issue stays false either way). -/
theorem nomo_100s_counterexample :
    handle_needs_attention_entries "category" evNoMo
        (some [⟨"0/0", "0/0", "0/0"⟩]) ⟨[], false, false⟩ =
      .ok ⟨[("category", "NoMo")], false, false⟩ ∧
    "NoMo" ≠ "NoMo 100S" :=
  ⟨rfl, by decide⟩

/-- C6 amended: a replay-vs-textfile category disagreement pairing NoMo 100S
with NoMo (either way round) on a level whose secrets statistics are all 0/0
resolves, without flagging, to the replay-sourced candidate: NoMo 100S when
the replay said NoMo 100S, NoMo when the replay said NoMo. -/
theorem nomo_100s_amended (key_to_insert : String) (evaluation : Evaluation)
    (stats : List Stats) (st : ConstructorState) (pb tf : String)
    (hkey : evaluation.key = "category")
    (hpb : (extractCategories evaluation.possible_values).1 = some pb)
    (htf : (extractCategories evaluation.possible_values).2 = some tf)
    (hvals : (pb = "NoMo 100S" ∧ tf = "NoMo") ∨ (pb = "NoMo" ∧ tf = "NoMo 100S"))
    (hsec : stats.all (fun s => s.secrets == "0/0") = true) :
    handle_needs_attention_entries key_to_insert evaluation (some stats) st =
      .ok { st with demo_json := dictSetStr st.demo_json key_to_insert pb } := by
  rw [handle_needs_attention_entries, if_pos hkey]
  rcases hvals with ⟨hp, ht⟩ | ⟨hp, ht⟩
  · subst hp; subst ht
    simp only [hpb, htf]
    rw [if_pos (by simp)]
    rfl
  · subst hp; subst ht
    simp only [hpb, htf]
    rw [if_neg (by simp)]
    rw [if_pos (by simp [hsec])]
    rfl

/-- Witness for the C6 amended claim at both assignments of the two values
to the two sources. -/
theorem nomo_100s_amended_witness :
    handle_needs_attention_entries "category" evNoMo
        (some [⟨"0/0", "0/0", "0/0"⟩]) ⟨[], false, false⟩ =
      .ok ⟨[("category", "NoMo")], false, false⟩ ∧
    handle_needs_attention_entries "category"
        ⟨"category", [("NoMo 100S", ["playback"]), ("NoMo", ["textfile"])], true,
         DISAGREED_POSSIBLE⟩
        (some [⟨"0/0", "0/0", "0/0"⟩]) ⟨[], false, false⟩ =
      .ok ⟨[("category", "NoMo 100S")], false, false⟩ := by
  constructor
  · exact nomo_100s_amended "category" evNoMo [⟨"0/0", "0/0", "0/0"⟩]
      ⟨[], false, false⟩ "NoMo" "NoMo 100S" rfl rfl rfl (Or.inr ⟨rfl, rfl⟩) rfl
  · exact nomo_100s_amended "category"
      ⟨"category", [("NoMo 100S", ["playback"]), ("NoMo", ["textfile"])], true,
       DISAGREED_POSSIBLE⟩
      [⟨"0/0", "0/0", "0/0"⟩] ⟨[], false, false⟩ "NoMo 100S" "NoMo" rfl rfl rfl
      (Or.inl ⟨rfl, rfl⟩) rfl

/-- C9 (code bug): a genuine skill-variant note with a non-Other category
raises no error and is silently dropped, because the source matches the
regex against the literal string "note_string" (which the pattern rejects)
instead of the loop variable; the pattern itself does match the note, so the
override/raise branch is dead code. -/
theorem skill_note_dead_branch :
    construct_skill_tag ["Skill 2 UV Max"] "UV Max" = .ok ("", "UV Max") ∧
    construct_skill_tag ["Skill 2 UV Max"] "Other" = .ok ("", "Other") ∧
    matchesSkillNote "Skill 2 UV Max" = true ∧
    matchesSkillNote "note_string" = false :=
  ⟨rfl, rfl, rfl, rfl⟩
